import Mathlib

/-!
Verification development for the `@falkordb/mem0` FalkorDB graph-memory
backend (TypeScript).  The definitions below are shallow embeddings of the
source files:

* `CypherTranslator.ts`  — regex-based Neo4j→FalkorDB query rewriting,
  embedded as deterministic character-list matchers that implement the
  observable matching semantics of the three JavaScript regexes used by the
  source (leftmost match, lazy/greedy sub-matching as analysed per regex,
  `g` flag as a rescan after each replacement).
* `FalkorMemoryGraph.ts` — BM25 re-ranking, LLM tool-call output parsing,
  and the graph merge/search/delete engine.  LLM and embedding calls, JSON
  parsing and floating-point similarity are external collaborators and are
  taken as function parameters; the graph store's Cypher execution is
  embedded as explicit state transformations of a `GraphState`.
* `FalkorDBGraph.ts`     — graph-name selection and the translator hook.

Numbers that the source manipulates as IEEE doubles are modelled as `ℚ`;
the transcendental `Math.log` is a function parameter.
-/

namespace JSChar

/-- JavaScript regex `\s` for the characters that occur in this code base
(space, tab, newline, carriage return, vertical tab, form feed). -/
def jsSpace (c : Char) : Bool :=
  c = ' ' || c = '\t' || c = '\n' || c = '\r' || c = '\x0b' || c = '\x0c'

/-- JavaScript regex `\w` (ASCII word character). -/
def isWordChar (c : Char) : Bool :=
  c.isAlpha || c.isDigit || c = '_'

/-- Strip an exact literal from the front of the input, returning the rest. -/
def stripLit : List Char → List Char → Option (List Char)
  | [], l => some l
  | _ :: _, [] => none
  | p :: ps, c :: cs => if c = p then stripLit ps cs else none

/-- Case-insensitive literal strip (pattern given in lower case); models a
literal under the regex `i` flag for ASCII patterns. -/
def stripLitCI : List Char → List Char → Option (List Char)
  | [], l => some l
  | _ :: _, [] => none
  | p :: ps, c :: cs => if c.toLower = p then stripLitCI ps cs else none

/-- Greedily consume `\s*`. -/
def dropSpaces (l : List Char) : List Char := l.dropWhile jsSpace

/-- Expect one exact character. -/
def expectChar (c : Char) : List Char → Option (List Char)
  | x :: xs => if x = c then some xs else none
  | [] => none

/-- `\s+` (at least one space, then greedily the rest). -/
def spaces1 : List Char → Option (List Char)
  | c :: cs => if jsSpace c then some (dropSpaces cs) else none
  | [] => none

/-- `\w+` (greedy): the maximal run of word characters, failing on none. -/
def word1 (l : List Char) : Option (List Char × List Char) :=
  let p := l.span isWordChar
  if p.1 = [] then none else some p

/-- The word-boundary flag after scanning a block of characters: `w` is
whether the character before the block is a word character. -/
def flagAfter (w : Bool) : List Char → Bool
  | [] => w
  | c :: cs => flagAfter (isWordChar c) cs

/-- The `\\b` after a literal: the next character (if any) is not a word
character. -/
def notWordHead : List Char → Bool
  | [] => true
  | c :: _ => !isWordChar c

theorem stripLit_length {p l r : List Char} (h : stripLit p l = some r) :
    r.length + p.length = l.length := by
  induction p generalizing l with
  | nil => simp [stripLit] at h; simp [h]
  | cons a ps ih =>
    cases l with
    | nil => simp [stripLit] at h
    | cons c cs =>
      simp only [stripLit] at h
      split at h
      · have := ih h
        simp at this ⊢
        omega
      · exact absurd h (by simp)

theorem stripLitCI_length {p l r : List Char} (h : stripLitCI p l = some r) :
    r.length + p.length = l.length := by
  induction p generalizing l with
  | nil => simp [stripLitCI] at h; simp [h]
  | cons a ps ih =>
    cases l with
    | nil => simp [stripLitCI] at h
    | cons c cs =>
      simp only [stripLitCI] at h
      split at h
      · have := ih h
        simp at this ⊢
        omega
      · exact absurd h (by simp)

theorem dropWhile_length {α : Type} (p : α → Bool) (l : List α) :
    (l.dropWhile p).length ≤ l.length := by
  induction l with
  | nil => simp [List.dropWhile]
  | cons a l ih =>
    simp only [List.dropWhile] at ih ⊢
    split
    · simpa using Nat.le_succ_of_le ih
    · simp

theorem dropSpaces_length (l : List Char) : (dropSpaces l).length ≤ l.length :=
  dropWhile_length jsSpace l

theorem span_snd_length {α : Type} (p : α → Bool) (l : List α) :
    ((l.span p).2).length ≤ l.length := by
  rw [List.span_eq_take_drop]
  have hsplit : l.takeWhile p ++ l.dropWhile p = l := List.takeWhile_append_dropWhile ..
  have : (l.takeWhile p).length + (l.dropWhile p).length = l.length := by
    rw [← List.length_append, hsplit]
  simp only
  omega

theorem expectChar_length {c : Char} {l r : List Char} (h : expectChar c l = some r) :
    r.length + 1 = l.length := by
  cases l with
  | nil => simp [expectChar] at h
  | cons x xs =>
    simp only [expectChar] at h
    split at h
    · cases h; simp
    · exact absurd h (by simp)

theorem spaces1_length {l r : List Char} (h : spaces1 l = some r) :
    r.length < l.length := by
  cases l with
  | nil => simp [spaces1] at h
  | cons c cs =>
    simp only [spaces1] at h
    split at h
    · cases h
      have := dropSpaces_length cs
      simp
      omega
    · exact absurd h (by simp)

theorem word1_length {l w r : List Char} (h : word1 l = some (w, r)) :
    r.length < l.length := by
  simp only [word1, List.span_eq_take_drop] at h
  split at h
  · exact absurd h (by simp)
  · rename_i hne
    cases h
    have hsplit : l.takeWhile isWordChar ++ l.dropWhile isWordChar = l :=
      List.takeWhile_append_dropWhile ..
    have hlen : (l.takeWhile isWordChar).length + (l.dropWhile isWordChar).length = l.length := by
      rw [← List.length_append, hsplit]
    have : 0 < (l.takeWhile isWordChar).length := by
      cases hh : l.takeWhile isWordChar with
      | nil => exact absurd hh hne
      | cons a as => simp
    omega

end JSChar

-- ════════════════════════════════════════════════════════════════════════
-- CypherTranslator.ts
-- ════════════════════════════════════════════════════════════════════════

/-- A JavaScript parameter value, as stored in the `params` record handed to
`CypherTranslator.translate` (only the shapes this code base passes). -/
inductive PVal where
  | str (s : String)
  | num (q : ℚ)
  | bool (b : Bool)
  | null
deriving DecidableEq, Repr

/-- JavaScript truthiness of a parameter value (`if (relType)`). -/
def PVal.truthy : PVal → Bool
  | .str s => s ≠ ""
  | .num q => decide (q ≠ 0)
  | .bool b => b
  | .null => false

/-- Template-literal interpolation of a value; relationship types are
strings in every caller, so only `.str` is exercised by the claims. -/
def PVal.toJSString : PVal → String
  | .str s => s
  | .num q => toString q
  | .bool b => if b then "true" else "false"
  | .null => "null"

/-- A JavaScript object used as a parameter map: an association list with
distinct keys, in insertion order. -/
def ParamsMap := List (String × PVal)
deriving instance DecidableEq, Repr for ParamsMap

/-- Property read `params[k]` (`undefined` as `none`). -/
def pLookup (m : ParamsMap) (k : String) : Option PVal :=
  match m with
  | [] => none
  | (k', v) :: rest => if k' = k then some v else pLookup rest k

/-- `delete params[k]`. -/
def pErase (m : ParamsMap) (k : String) : ParamsMap :=
  m.filter (fun kv => kv.1 ≠ k)

namespace CypherTranslator
open JSChar

-- ── regex 1: /\belementId\s*\(/g  replaced by "id(" ─────────────────────

/-- Attempt `elementId\s*\(` at the head of the input (the `\b` is handled
by the scanner); returns the remainder after the `(`. -/
def tryElementId (l : List Char) : Option (List Char) :=
  match stripLit "elementId".data l with
  | none => none
  | some r =>
    match dropSpaces r with
    | '(' :: rest => some rest
    | _ => none

/-- Leftmost match of `/\belementId\s*\(/`; `w` is whether the character
before the scan position is a word character.  Returns the text before the
match and the remainder after it. -/
def findElementId : Bool → List Char → Option (List Char × List Char)
  | _, [] => none
  | w, c :: cs =>
    match (if w then none else tryElementId (c :: cs)) with
    | some rest => some ([], rest)
    | none =>
      match findElementId (isWordChar c) cs with
      | some (p, r) => some (c :: p, r)
      | none => none

theorem tryElementId_length {l r : List Char} (h : tryElementId l = some r) :
    r.length < l.length := by
  cases hs : stripLit "elementId".data l with
  | none => simp [tryElementId, hs] at h
  | some r0 =>
    have h0 := stripLit_length hs
    have h1 := dropSpaces_length r0
    cases hd : dropSpaces r0 with
    | nil => simp [tryElementId, hs, hd] at h
    | cons c rest =>
      simp only [tryElementId, hs, hd] at h
      split at h
      · rename_i rest2 heq
        injection h with h2
        subst h2
        injection heq with hc hr
        subst hr
        rw [hd] at h1
        simp at h0 h1 ⊢
        omega
      · exact absurd h (by simp)

theorem findElementId_length {w : Bool} {l p r : List Char}
    (h : findElementId w l = some (p, r)) : r.length < l.length := by
  induction l generalizing w p with
  | nil => simp [findElementId] at h
  | cons c cs ih =>
    unfold findElementId at h
    cases ht : (if w then none else tryElementId (c :: cs)) with
    | some rest =>
      rw [ht] at h
      cases h
      split at ht
      · exact absurd ht (by simp)
      · exact tryElementId_length ht
    | none =>
      rw [ht] at h
      cases hf : findElementId (isWordChar c) cs with
      | none => rw [hf] at h; exact absurd h (by simp)
      | some pr =>
        rw [hf] at h
        cases h
        have := ih hf
        simp
        omega

/-- `query.replace(/\belementId\s*\(/g, "id(")`, with a fuel bound; every
match consumes at least one character, so `l.length` is always enough fuel. -/
def replaceElementIdF : ℕ → Bool → List Char → List Char
  | 0, _, l => l
  | n + 1, w, l =>
    match findElementId w l with
    | none => l
    | some (p, r) => p ++ "id(".data ++ replaceElementIdF n false r

theorem replaceElementIdF_fuel {f g : ℕ} {w : Bool} {l : List Char}
    (h₁ : l.length ≤ f) (h₂ : l.length ≤ g) :
    replaceElementIdF f w l = replaceElementIdF g w l := by
  induction f generalizing g w l with
  | zero =>
    have : l = [] := by cases l with | nil => rfl | cons a as => simp at h₁
    subst this
    cases g with
    | zero => rfl
    | succ m => simp [replaceElementIdF, findElementId]
  | succ n ih =>
    cases g with
    | zero =>
      have : l = [] := by cases l with | nil => rfl | cons a as => simp at h₂
      subst this
      simp [replaceElementIdF, findElementId]
    | succ m =>
      unfold replaceElementIdF
      cases hf : findElementId w l with
      | none => rfl
      | some pr =>
        obtain ⟨p, r⟩ := pr
        have hlt := findElementId_length hf
        have heq : replaceElementIdF n false r = replaceElementIdF m false r :=
          ih (by omega) (by omega)
        simp only [heq]

/-- `CypherTranslator.translateElementId`. -/
def translateElementId (s : String) : String :=
  ⟨replaceElementIdF s.data.length false s.data⟩

-- ── regex 2: /\bround\s*\(([\s\S]*?),\s*(\d+)\s*\)\s*AS\b/g ─────────────

/-- Attempt the terminator `,\s*(\d+)\s*\)\s*AS\b` at the head of the
input; returns the remainder after `AS` (the trailing `\b` checks the next
character).  Greedy `\s*`/`\d+` here are deterministic because no later
element of the pattern can consume a space or digit given back. -/
def tryRoundTail (l : List Char) : Option (List Char) :=
  match expectChar ',' l with
  | none => none
  | some r =>
    if (dropSpaces r).takeWhile Char.isDigit = [] then none
    else
      match expectChar ')' (dropSpaces ((dropSpaces r).dropWhile Char.isDigit)) with
      | none => none
      | some r4 =>
        match stripLit "AS".data (dropSpaces r4) with
        | none => none
        | some r6 =>
          match r6 with
          | [] => some []
          | c2 :: _ => if isWordChar c2 then none else some r6

/-- The lazy `([\s\S]*?)` scan: the shortest split of the input whose
remainder matches `tryRoundTail`; returns the captured expression and the
remainder after the terminator. -/
def findRoundTail : List Char → Option (List Char × List Char)
  | [] => none
  | c :: cs =>
    match tryRoundTail (c :: cs) with
    | some rem => some ([], rem)
    | none =>
      match findRoundTail cs with
      | some (e, r) => some (c :: e, r)
      | none => none

/-- Attempt the whole round pattern at the head of the input (after the
scanner has checked `\b`); returns the captured expression and remainder. -/
def tryRound (l : List Char) : Option (List Char × List Char) :=
  match stripLit "round".data l with
  | none => none
  | some r =>
    match dropSpaces r with
    | '(' :: rest => findRoundTail rest
    | _ => none

/-- Leftmost match of the round regex; returns the text before the match,
the captured expression, and the remainder after the match. -/
def findRound : Bool → List Char → Option (List Char × List Char × List Char)
  | _, [] => none
  | w, c :: cs =>
    match (if w then none else tryRound (c :: cs)) with
    | some (e, rem) => some ([], e, rem)
    | none =>
      match findRound (isWordChar c) cs with
      | some (p, e, r) => some (c :: p, e, r)
      | none => none

theorem tryRoundTail_length {l r : List Char} (h : tryRoundTail l = some r) :
    r.length < l.length := by
  cases h1 : expectChar ',' l with
  | none => simp [tryRoundTail, h1] at h
  | some r1 =>
    have e1 := expectChar_length h1
    simp only [tryRoundTail, h1] at h
    split at h
    · exact absurd h (by simp)
    · have hspan : (List.dropWhile Char.isDigit (dropSpaces r1)).length ≤ r1.length :=
        le_trans (dropWhile_length _ _) (dropSpaces_length r1)
      have d2 := dropSpaces_length (List.dropWhile Char.isDigit (dropSpaces r1))
      cases h2 : expectChar ')' (dropSpaces (List.dropWhile Char.isDigit (dropSpaces r1))) with
      | none => simp [h2] at h
      | some r4 =>
        have e2 := expectChar_length h2
        simp only [h2] at h
        cases h3 : stripLit "AS".data (dropSpaces r4) with
        | none => simp [h3] at h
        | some r6 =>
          have e3 := stripLit_length h3
          have d3 := dropSpaces_length r4
          have hr6 : r6.length < l.length := by simp at e3; omega
          simp only [h3] at h
          cases r6 with
          | nil =>
            simp at h
            subst h
            simpa using hr6
          | cons c2 r7 =>
            split at h
            next heq => exact absurd heq (by simp)
            next c3 t3 heq =>
              injection heq with hc ht
              subst hc
              subst ht
              split at h
              · exact absurd h (by simp)
              · injection h with h4
                subst h4
                simpa using hr6

theorem findRoundTail_length {l e r : List Char} (h : findRoundTail l = some (e, r)) :
    r.length < l.length := by
  induction l generalizing e with
  | nil => simp [findRoundTail] at h
  | cons c cs ih =>
    unfold findRoundTail at h
    cases ht : tryRoundTail (c :: cs) with
    | some rem =>
      rw [ht] at h
      injection h with h2
      injection h2 with h3 h4
      subst h4
      exact tryRoundTail_length ht
    | none =>
      rw [ht] at h
      cases hf : findRoundTail cs with
      | none => rw [hf] at h; exact absurd h (by simp)
      | some pr =>
        obtain ⟨e0, r0⟩ := pr
        rw [hf] at h
        injection h with h2
        injection h2 with h3 h4
        subst h4
        have := ih hf
        simp
        omega

theorem tryRound_length {l e r : List Char} (h : tryRound l = some (e, r)) :
    r.length < l.length := by
  cases hs : stripLit "round".data l with
  | none => simp [tryRound, hs] at h
  | some r0 =>
    have h0 := stripLit_length hs
    have h1 := dropSpaces_length r0
    cases hd : dropSpaces r0 with
    | nil => simp [tryRound, hs, hd] at h
    | cons c rest =>
      simp only [tryRound, hs, hd] at h
      split at h
      · rename_i rest2 heq
        injection heq with hc hr
        subst hr
        have := findRoundTail_length h
        rw [hd] at h1
        simp at h0 h1 ⊢
        omega
      · exact absurd h (by simp)

theorem findRound_length {w : Bool} {l p e r : List Char}
    (h : findRound w l = some (p, e, r)) : r.length < l.length := by
  induction l generalizing w p e with
  | nil => simp [findRound] at h
  | cons c cs ih =>
    unfold findRound at h
    cases ht : (if w then none else tryRound (c :: cs)) with
    | some er =>
      obtain ⟨e0, r0⟩ := er
      rw [ht] at h
      injection h with h2
      injection h2 with h3 h4
      injection h4 with h5 h6
      subst h6
      split at ht
      · exact absurd ht (by simp)
      · exact tryRound_length ht
    | none =>
      rw [ht] at h
      cases hf : findRound (isWordChar c) cs with
      | none => rw [hf] at h; exact absurd h (by simp)
      | some per =>
        obtain ⟨p0, e0, r0⟩ := per
        rw [hf] at h
        injection h with h2
        injection h2 with h3 h4
        injection h4 with h5 h6
        subst h6
        have := ih hf
        simp
        omega

/-- `query.replace(round-regex, (m, expr) => round(expr) AS)`, fuelled;
after a replacement the scan resumes with the flag for the final `S`. -/
def replaceRoundF : ℕ → Bool → List Char → List Char
  | 0, _, l => l
  | n + 1, w, l =>
    match findRound w l with
    | none => l
    | some (p, e, r) => p ++ "round(".data ++ e ++ ") AS".data ++ replaceRoundF n true r

theorem replaceRoundF_fuel {f g : ℕ} {w : Bool} {l : List Char}
    (h₁ : l.length ≤ f) (h₂ : l.length ≤ g) :
    replaceRoundF f w l = replaceRoundF g w l := by
  induction f generalizing g w l with
  | zero =>
    have : l = [] := by cases l with | nil => rfl | cons a as => simp at h₁
    subst this
    cases g with
    | zero => rfl
    | succ m => simp [replaceRoundF, findRound]
  | succ n ih =>
    cases g with
    | zero =>
      have : l = [] := by cases l with | nil => rfl | cons a as => simp at h₂
      subst this
      simp [replaceRoundF, findRound]
    | succ m =>
      unfold replaceRoundF
      cases hf : findRound w l with
      | none => rfl
      | some per =>
        obtain ⟨p, e, r⟩ := per
        have hlt := findRound_length hf
        have heq : replaceRoundF n true r = replaceRoundF m true r :=
          ih (by omega) (by omega)
        simp only [heq]

/-- `CypherTranslator.translateRound`. -/
def translateRound (s : String) : String :=
  ⟨replaceRoundF s.data.length false s.data⟩

-- ── regex 3: APOC merge-relationship call (flags gis) ───────────────────
-- /CALL\s+apoc\.merge\.relationship\s*\(\s*(\w+)\s*,\s*\$(\w+)\s*,\s*
--   \{[^}]*\}\s*,\s*(\{[^}]*\}|\$\w+)\s*,\s*(\w+)(?:\s*,\s*\{[^}]*\})?
--   \s*\)\s*YIELD\s+(\w+)/gis

/-- A brace block `\{[^}]*\}` (greedy head, deterministic). -/
def braceBlock (l : List Char) : Option (List Char) :=
  match expectChar '{' l with
  | none => none
  | some r => expectChar '}' (r.dropWhile (fun c => c != '}'))

/-- The alternation `(\{[^}]*\}|\$\w+)`: first alternative, then second. -/
def propsArg (l : List Char) : Option (List Char) :=
  match braceBlock l with
  | some r => some r
  | none =>
    match expectChar '$' l with
    | none => none
    | some rest => (word1 rest).map (fun p => p.2)

/-- The optional group `(?:\s*,\s*\{[^}]*\})?` when taken. -/
def apocOpt (l : List Char) : Option (List Char) :=
  match expectChar ',' (dropSpaces l) with
  | none => none
  | some r => braceBlock (dropSpaces r)

/-- The pattern tail `\s*\)\s*YIELD\s+(\w+)`; returns the captured yield
variable and the remainder after the whole match. -/
def apocFinish (l : List Char) : Option (List Char × List Char) :=
  match expectChar ')' (dropSpaces l) with
  | none => none
  | some r1 =>
    match stripLitCI "yield".data (dropSpaces r1) with
    | none => none
    | some r2 =>
      match spaces1 r2 with
      | none => none
      | some r3 => word1 r3

/-- The four captured groups the replacement callback uses. -/
structure ApocCaps where
  sourceVar : List Char
  relTypeParam : List Char
  targetVar : List Char
  yieldVar : List Char
deriving DecidableEq, Repr

/-- Attempt the whole APOC pattern at the head of the input.  The one
productive backtracking point of this regex is the optional trailing
`,\s*\{[^}]*\}` group: taken first, given back if the tail then fails. -/
def tryApoc (l : List Char) : Option (ApocCaps × List Char) :=
  match stripLitCI "call".data l with
  | none => none
  | some r0 =>
  match spaces1 r0 with
  | none => none
  | some r1 =>
  match stripLitCI "apoc.merge.relationship".data r1 with
  | none => none
  | some r2 =>
  match expectChar '(' (dropSpaces r2) with
  | none => none
  | some r3 =>
  match word1 (dropSpaces r3) with
  | none => none
  | some (srcVar, r4) =>
  match expectChar ',' (dropSpaces r4) with
  | none => none
  | some r5 =>
  match expectChar '$' (dropSpaces r5) with
  | none => none
  | some r6 =>
  match word1 r6 with
  | none => none
  | some (relParam, r7) =>
  match expectChar ',' (dropSpaces r7) with
  | none => none
  | some r8 =>
  match braceBlock (dropSpaces r8) with
  | none => none
  | some r9 =>
  match expectChar ',' (dropSpaces r9) with
  | none => none
  | some r10 =>
  match propsArg (dropSpaces r10) with
  | none => none
  | some r11 =>
  match expectChar ',' (dropSpaces r11) with
  | none => none
  | some r12 =>
  match word1 (dropSpaces r12) with
  | none => none
  | some (tgtVar, r13) =>
  match apocOpt r13 with
  | some r14 =>
    match apocFinish r14 with
    | some (yv, rem) => some (⟨srcVar, relParam, tgtVar, yv⟩, rem)
    | none =>
      match apocFinish r13 with
      | some (yv, rem) => some (⟨srcVar, relParam, tgtVar, yv⟩, rem)
      | none => none
  | none =>
    match apocFinish r13 with
    | some (yv, rem) => some (⟨srcVar, relParam, tgtVar, yv⟩, rem)
    | none => none

/-- Leftmost match of the APOC regex (the pattern has no boundary
condition, so every position is tried). -/
def findApoc : List Char → Option (List Char × ApocCaps × List Char)
  | [] => none
  | c :: cs =>
    match tryApoc (c :: cs) with
    | some (caps, rem) => some ([], caps, rem)
    | none =>
      match findApoc cs with
      | some (p, caps, r) => some (c :: p, caps, r)
      | none => none

theorem braceBlock_length {l r : List Char} (h : braceBlock l = some r) :
    r.length < l.length := by
  cases h1 : expectChar '{' l with
  | none => simp [braceBlock, h1] at h
  | some r1 =>
    have e1 := expectChar_length h1
    simp only [braceBlock, h1] at h
    have e2 := expectChar_length h
    have d1 := dropWhile_length (fun c => c != '}') r1
    omega

theorem propsArg_length {l r : List Char} (h : propsArg l = some r) :
    r.length < l.length := by
  cases h1 : braceBlock l with
  | some r1 =>
    simp only [propsArg, h1] at h
    injection h with h2
    subst h2
    exact braceBlock_length h1
  | none =>
    simp only [propsArg, h1] at h
    cases h2 : expectChar '$' l with
    | none => simp [h2] at h
    | some rest =>
      have e2 := expectChar_length h2
      simp only [h2] at h
      cases h3 : word1 rest with
      | none => simp [h3] at h
      | some p =>
        obtain ⟨w0, r0⟩ := p
        have := word1_length h3
        simp only [h3, Option.map] at h
        injection h with h4
        subst h4
        omega

theorem apocOpt_length {l r : List Char} (h : apocOpt l = some r) :
    r.length < l.length := by
  cases h1 : expectChar ',' (dropSpaces l) with
  | none => simp [apocOpt, h1] at h
  | some r1 =>
    have e1 := expectChar_length h1
    have d1 := dropSpaces_length l
    simp only [apocOpt, h1] at h
    have := braceBlock_length h
    have d2 := dropSpaces_length r1
    omega

theorem apocFinish_length {l yv rem : List Char} (h : apocFinish l = some (yv, rem)) :
    rem.length < l.length := by
  cases h1 : expectChar ')' (dropSpaces l) with
  | none => simp [apocFinish, h1] at h
  | some r1 =>
    have e1 := expectChar_length h1
    have d0 := dropSpaces_length l
    simp only [apocFinish, h1] at h
    cases h2 : stripLitCI "yield".data (dropSpaces r1) with
    | none => simp [h2] at h
    | some r2 =>
      have e2 := stripLitCI_length h2
      have d1 := dropSpaces_length r1
      simp only [h2] at h
      cases h3 : spaces1 r2 with
      | none => simp [h3] at h
      | some r3 =>
        have e3 := spaces1_length h3
        simp only [h3] at h
        have := word1_length h
        simp at e2
        omega

theorem tryApoc_length {l : List Char} {caps : ApocCaps} {rem : List Char}
    (h : tryApoc l = some (caps, rem)) : rem.length < l.length := by
  cases g0 : stripLitCI "call".data l with
  | none => simp [tryApoc, g0] at h
  | some r0 =>
  have f0 := stripLitCI_length g0
  simp only [tryApoc, g0] at h
  cases g1 : spaces1 r0 with
  | none => simp [g1] at h
  | some r1 =>
  have f1 := spaces1_length g1
  simp only [g1] at h
  cases g2 : stripLitCI "apoc.merge.relationship".data r1 with
  | none => simp [g2] at h
  | some r2 =>
  have f2 := stripLitCI_length g2
  simp only [g2] at h
  cases g3 : expectChar '(' (dropSpaces r2) with
  | none => simp [g3] at h
  | some r3 =>
  have f3 := expectChar_length g3
  have d3 := dropSpaces_length r2
  simp only [g3] at h
  cases g4 : word1 (dropSpaces r3) with
  | none => simp [g4] at h
  | some p4 =>
  obtain ⟨srcVar, r4⟩ := p4
  have f4 := word1_length g4
  have d4 := dropSpaces_length r3
  simp only [g4] at h
  cases g5 : expectChar ',' (dropSpaces r4) with
  | none => simp [g5] at h
  | some r5 =>
  have f5 := expectChar_length g5
  have d5 := dropSpaces_length r4
  simp only [g5] at h
  cases g6 : expectChar '$' (dropSpaces r5) with
  | none => simp [g6] at h
  | some r6 =>
  have f6 := expectChar_length g6
  have d6 := dropSpaces_length r5
  simp only [g6] at h
  cases g7 : word1 r6 with
  | none => simp [g7] at h
  | some p7 =>
  obtain ⟨relParam, r7⟩ := p7
  have f7 := word1_length g7
  simp only [g7] at h
  cases g8 : expectChar ',' (dropSpaces r7) with
  | none => simp [g8] at h
  | some r8 =>
  have f8 := expectChar_length g8
  have d8 := dropSpaces_length r7
  simp only [g8] at h
  cases g9 : braceBlock (dropSpaces r8) with
  | none => simp [g9] at h
  | some r9 =>
  have f9 := braceBlock_length g9
  have d9 := dropSpaces_length r8
  simp only [g9] at h
  cases g10 : expectChar ',' (dropSpaces r9) with
  | none => simp [g10] at h
  | some r10 =>
  have f10 := expectChar_length g10
  have d10 := dropSpaces_length r9
  simp only [g10] at h
  cases g11 : propsArg (dropSpaces r10) with
  | none => simp [g11] at h
  | some r11 =>
  have f11 := propsArg_length g11
  have d11 := dropSpaces_length r10
  simp only [g11] at h
  cases g12 : expectChar ',' (dropSpaces r11) with
  | none => simp [g12] at h
  | some r12 =>
  have f12 := expectChar_length g12
  have d12 := dropSpaces_length r11
  simp only [g12] at h
  cases g13 : word1 (dropSpaces r12) with
  | none => simp [g13] at h
  | some p13 =>
  obtain ⟨tgtVar, r13⟩ := p13
  have f13 := word1_length g13
  have d13 := dropSpaces_length r12
  simp only [g13] at h
  have hl13 : r13.length < l.length := by simp at f0 f2; omega
  cases g14 : apocOpt r13 with
  | some r14 =>
    have f14 := apocOpt_length g14
    simp only [g14] at h
    cases g15 : apocFinish r14 with
    | some p15 =>
      obtain ⟨yv, rem15⟩ := p15
      have f15 := apocFinish_length g15
      simp only [g15] at h
      injection h with h2
      injection h2 with h3 h4
      subst h4
      omega
    | none =>
      simp only [g15] at h
      cases g16 : apocFinish r13 with
      | none => simp [g16] at h
      | some p16 =>
        obtain ⟨yv, rem16⟩ := p16
        have f16 := apocFinish_length g16
        simp only [g16] at h
        injection h with h2
        injection h2 with h3 h4
        subst h4
        omega
  | none =>
    simp only [g14] at h
    cases g16 : apocFinish r13 with
    | none => simp [g16] at h
    | some p16 =>
      obtain ⟨yv, rem16⟩ := p16
      have f16 := apocFinish_length g16
      simp only [g16] at h
      injection h with h2
      injection h2 with h3 h4
      subst h4
      omega

theorem findApoc_length {l p : List Char} {caps : ApocCaps} {r : List Char}
    (h : findApoc l = some (p, caps, r)) : r.length < l.length := by
  induction l generalizing p caps with
  | nil => simp [findApoc] at h
  | cons c cs ih =>
    unfold findApoc at h
    cases ht : tryApoc (c :: cs) with
    | some cr =>
      obtain ⟨caps0, rem0⟩ := cr
      rw [ht] at h
      injection h with h2
      injection h2 with h3 h4
      injection h4 with h5 h6
      subst h6
      exact tryApoc_length ht
    | none =>
      rw [ht] at h
      cases hf : findApoc cs with
      | none => rw [hf] at h; exact absurd h (by simp)
      | some pcr =>
        obtain ⟨p0, caps0, r0⟩ := pcr
        rw [hf] at h
        injection h with h2
        injection h2 with h3 h4
        injection h4 with h5 h6
        subst h6
        have := ih hf
        simp
        omega

/-- The replacement callback of `translateApocMergeRelationship` applied at
one match: looks the relationship type up in `params`, deletes the
parameter when truthy, and builds the `MERGE` clause. -/
def apocReplacement (params : ParamsMap) (caps : ApocCaps) :
    List Char × ParamsMap :=
  let relTypeOpt := pLookup params (String.mk caps.relTypeParam)
  let isTruthy := match relTypeOpt with
    | some v => v.truthy
    | none => false
  let params' := if isTruthy then pErase params (String.mk caps.relTypeParam) else params
  let safeRelType : List Char :=
    match relTypeOpt with
    | some v => if v.truthy then '`' :: v.toJSString.data ++ ['`'] else "`RELATED_TO`".data
    | none => "`RELATED_TO`".data
  ("MERGE (".data ++ caps.sourceVar ++ ")-[".data ++ caps.yieldVar
      ++ [':'] ++ safeRelType ++ "]->(".data ++ caps.targetVar ++ [')'], params')

/-- `query.replace(apoc-regex, callback)` with the callback mutating the
params object across successive matches, fuelled. -/
def replaceApocF : ℕ → List Char → ParamsMap → List Char × ParamsMap
  | 0, l, params => (l, params)
  | n + 1, l, params =>
    match findApoc l with
    | none => (l, params)
    | some (pre, caps, rest) =>
      let rp := apocReplacement params caps
      let out := replaceApocF n rest rp.2
      (pre ++ rp.1 ++ out.1, out.2)

theorem replaceApocF_fuel {f g : ℕ} {l : List Char} {params : ParamsMap}
    (h₁ : l.length ≤ f) (h₂ : l.length ≤ g) :
    replaceApocF f l params = replaceApocF g l params := by
  induction f generalizing g l params with
  | zero =>
    have : l = [] := by cases l with | nil => rfl | cons a as => simp at h₁
    subst this
    cases g with
    | zero => rfl
    | succ m => simp [replaceApocF, findApoc]
  | succ n ih =>
    cases g with
    | zero =>
      have : l = [] := by cases l with | nil => rfl | cons a as => simp at h₂
      subst this
      simp [replaceApocF, findApoc]
    | succ m =>
      unfold replaceApocF
      cases hf : findApoc l with
      | none => rfl
      | some pcr =>
        obtain ⟨pre, caps, rest⟩ := pcr
        have hlt := findApoc_length hf
        have heq : replaceApocF n rest (apocReplacement params caps).2
            = replaceApocF m rest (apocReplacement params caps).2 :=
          ih (by omega) (by omega)
        simp only [heq]

/-- `CypherTranslator.translateApocMergeRelationship` (the source mutates
the params object it is handed; the value-level result is returned here,
object identity is modelled separately for the aliasing claim). -/
def translateApocMergeRelationship (s : String) (params : ParamsMap) :
    String × ParamsMap :=
  let r := replaceApocF s.data.length s.data params
  (String.mk r.1, r.2)

/-- `CypherTranslator.translate`: shallow-copies the params, then applies
the three rewrites in order. -/
def translate (query : String) (params : ParamsMap) : String × ParamsMap :=
  let translatedParams := params
  let t1 := translateElementId query
  let t2 := translateRound t1
  translateApocMergeRelationship t2 translatedParams

-- ── support for the round-rewrite claim: decomposed-form matching ───────

/-- No `\\bround` literal fires while scanning `p` (with continuation `mid`
supplying the characters a literal starting near the end of `p` would
consume). -/
def roundScanClear (mid : List Char) : Bool → List Char → Bool
  | _, [] => true
  | w, c :: cs =>
    (w || (stripLit "round".data ((c :: cs) ++ mid)).isNone)
      && roundScanClear mid (isWordChar c) cs

/-- The lazy terminator search fails at every position strictly inside
`expr` (with the real terminator `tail` appended). -/
def tailStops (tail : List Char) : List Char → Bool
  | [] => true
  | c :: cs => (tryRoundTail ((c :: cs) ++ tail)).isNone && tailStops tail cs

theorem stripLit_self (p r : List Char) : stripLit p (p ++ r) = some r := by
  induction p with
  | nil => simp [stripLit]
  | cons a ps ih => simp [stripLit, ih]

theorem findRound_append {p mid : List Char} {w : Bool}
    (hclear : roundScanClear mid w p = true) :
    findRound w (p ++ mid)
      = (findRound (flagAfter w p) mid).map (fun x => (p ++ x.1, x.2.1, x.2.2)) := by
  induction p generalizing w with
  | nil =>
    cases hf : findRound w mid <;> simp [flagAfter, hf]
  | cons c cs ih =>
    simp only [roundScanClear, Bool.and_eq_true] at hclear
    obtain ⟨hhere, hrest⟩ := hclear
    have hstep : (if w = true then none else tryRound (c :: (cs ++ mid)))
        = (none : Option (List Char × List Char)) := by
      cases w with
      | true => rfl
      | false =>
        simp only [Bool.false_or, Option.isNone_iff_eq_none] at hhere
        rw [show ((c :: cs) ++ mid) = c :: (cs ++ mid) from rfl] at hhere
        simp [tryRound, hhere]
    have ihr := ih (w := isWordChar c) hrest
    show findRound w (c :: (cs ++ mid)) = _
    conv_lhs => rw [findRound]
    simp only [hstep, ihr]
    have hflag : flagAfter w (c :: cs) = flagAfter (isWordChar c) cs := rfl
    rw [hflag]
    cases hm : findRound (flagAfter (isWordChar c) cs) mid with
    | none => simp
    | some x =>
      obtain ⟨p, e, r⟩ := x
      simp

theorem findRoundTail_split {expr tail rem : List Char}
    (hstop : tailStops tail expr = true) (htail : tryRoundTail tail = some rem) :
    findRoundTail (expr ++ tail) = some (expr, rem) := by
  induction expr with
  | nil =>
    cases tail with
    | nil => simp [tryRoundTail, expectChar] at htail
    | cons t ts =>
      simp only [List.nil_append]
      unfold findRoundTail
      rw [htail]
  | cons c cs ih =>
    simp only [tailStops, Bool.and_eq_true, Option.isNone_iff_eq_none] at hstop
    obtain ⟨hhere, hrest⟩ := hstop
    rw [show ((c :: cs) ++ tail) = c :: (cs ++ tail) from rfl] at hhere
    show findRoundTail (c :: (cs ++ tail)) = _
    unfold findRoundTail
    simp only [hhere]
    rw [ih hrest]

theorem jsSpace_of_isDigit {c : Char} (h : c.isDigit = true) : jsSpace c = false := by
  by_contra hc
  simp only [Bool.not_eq_false] at hc
  have h6 : c = ' ' ∨ c = '\t' ∨ c = '\n' ∨ c = '\r' ∨ c = '\x0b' ∨ c = '\x0c' := by
    simpa [jsSpace, or_assoc] using hc
  rcases h6 with h1 | h1 | h1 | h1 | h1 | h1 <;> subst h1 <;> exact absurd h (by decide)

theorem dropWhile_append_all {α : Type} {p : α → Bool} {ds rest : List α}
    (hall : ∀ c ∈ ds, p c = true) :
    (ds ++ rest).dropWhile p = rest.dropWhile p := by
  induction ds with
  | nil => simp
  | cons a as ih =>
    have ha := hall a (by simp)
    simp only [List.cons_append, List.dropWhile, ha]
    exact ih (fun c hc => hall c (by simp [hc]))

theorem takeWhile_append_all {α : Type} {p : α → Bool} {ds rest : List α}
    (hall : ∀ c ∈ ds, p c = true) :
    (ds ++ rest).takeWhile p = ds ++ rest.takeWhile p := by
  induction ds with
  | nil => simp
  | cons a as ih =>
    have ha := hall a (by simp)
    simp only [List.cons_append, List.takeWhile_cons, ha, if_true]
    rw [ih (fun c hc => hall c (by simp [hc]))]

/-- The canonical written form of the terminator `, <digits>) AS<post>`
matches, consuming everything up to and including `AS`. -/
theorem tryRoundTail_canonical {ds post : List Char} (hne : ds ≠ [])
    (hds : ∀ c ∈ ds, c.isDigit = true)
    (hpost : notWordHead post = true) :
    tryRoundTail (',' :: ' ' :: (ds ++ (')' :: ' ' :: 'A' :: 'S' :: post))) = some post := by
  have hds_start : dropSpaces (' ' :: (ds ++ (')' :: ' ' :: 'A' :: 'S' :: post)))
      = ds ++ (')' :: ' ' :: 'A' :: 'S' :: post) := by
    cases ds with
    | nil => exact absurd rfl hne
    | cons d dd =>
      have hd := hds d (by simp)
      simp only [dropSpaces, List.dropWhile, List.cons_append]
      rw [show jsSpace ' ' = true from by decide]
      simp [jsSpace_of_isDigit hd]
  have hspan1 : (ds ++ (')' :: ' ' :: 'A' :: 'S' :: post)).takeWhile Char.isDigit = ds := by
    rw [takeWhile_append_all hds]
    simp [List.takeWhile]
  have hspan2 : (ds ++ (')' :: ' ' :: 'A' :: 'S' :: post)).dropWhile Char.isDigit
      = ')' :: ' ' :: 'A' :: 'S' :: post := by
    rw [dropWhile_append_all hds]
    simp [List.dropWhile]
  unfold tryRoundTail
  simp only [show expectChar ',' (',' :: ' ' :: (ds ++ (')' :: ' ' :: 'A' :: 'S' :: post)))
      = some (' ' :: (ds ++ (')' :: ' ' :: 'A' :: 'S' :: post))) from rfl]
  rw [hds_start, hspan1, if_neg hne, hspan2]
  simp only [show dropSpaces (')' :: ' ' :: 'A' :: 'S' :: post)
      = ')' :: ' ' :: 'A' :: 'S' :: post from rfl]
  simp only [show expectChar ')' (')' :: ' ' :: 'A' :: 'S' :: post)
      = some (' ' :: 'A' :: 'S' :: post) from rfl]
  simp only [show dropSpaces (' ' :: 'A' :: 'S' :: post) = 'A' :: 'S' :: post from by
    simp only [dropSpaces, List.dropWhile]
    rw [show jsSpace ' ' = true from by decide, show jsSpace 'A' = false from by decide]]
  rw [show ('A' :: 'S' :: post) = "AS".data ++ post from rfl, stripLit_self]
  cases post with
  | nil => rfl
  | cons c cs =>
    simp only [notWordHead, Bool.not_eq_true'] at hpost
    simp [hpost]

theorem tryRound_canonical {expr tail rem : List Char}
    (hstop : tailStops tail expr = true) (htail : tryRoundTail tail = some rem) :
    tryRound ("round(".data ++ expr ++ tail) = some (expr, rem) := by
  have hshape : "round(".data ++ expr ++ tail
      = "round".data ++ ('(' :: (expr ++ tail)) := by simp
  rw [hshape]
  unfold tryRound
  rw [stripLit_self]
  simp only [show dropSpaces ('(' :: (expr ++ tail)) = '(' :: (expr ++ tail) from rfl]
  exact findRoundTail_split hstop htail

end CypherTranslator

namespace CypherTranslator
open JSChar

theorem replaceElementIdF_none {f : ℕ} {w : Bool} {l : List Char}
    (h : findElementId w l = none) : replaceElementIdF f w l = l := by
  cases f <;> simp [replaceElementIdF, h]

theorem replaceRoundF_none {f : ℕ} {w : Bool} {l : List Char}
    (h : findRound w l = none) : replaceRoundF f w l = l := by
  cases f <;> simp [replaceRoundF, h]

theorem replaceApocF_none {f : ℕ} {l : List Char} {params : ParamsMap}
    (h : findApoc l = none) : replaceApocF f l params = (l, params) := by
  cases f <;> simp [replaceApocF, h]

theorem findRound_head {l e r : List Char}
    (h : tryRound l = some (e, r)) (hl : l ≠ []) :
    findRound false l = some ([], e, r) := by
  cases l with
  | nil => exact absurd rfl hl
  | cons c cs =>
    unfold findRound
    simp [h]

end CypherTranslator

/-- **C7**: for every query text written as `<pre>round(<expr>, <n>) AS<post>`
— where `pre` triggers no round-literal match of its own and ends at a word
boundary, `expr` (which may contain nested parentheses and newlines) contains
no earlier terminator the lazy scan could stop at, `n` is a digit literal,
and `AS` ends at a word boundary — the translator rewrites the occurrence to
`round(<expr>) AS`, preserving `expr` verbatim and dropping only the
precision argument, and continues rewriting the rest of the text the same
way. -/
theorem C7_round_precision_rewrite
    (pre expr ds post : List Char)
    (hpre : CypherTranslator.roundScanClear
        ("round(".data ++ expr ++ (',' :: ' ' :: (ds ++ (')' :: ' ' :: 'A' :: 'S' :: post))))
        false pre = true)
    (hflag : JSChar.flagAfter false pre = false)
    (hstop : CypherTranslator.tailStops
        (',' :: ' ' :: (ds ++ (')' :: ' ' :: 'A' :: 'S' :: post))) expr = true)
    (hne : ds ≠ []) (hds : ∀ c ∈ ds, c.isDigit = true)
    (hpost : JSChar.notWordHead post = true) :
    CypherTranslator.translateRound
        ⟨pre ++ ("round(".data ++ expr ++ (',' :: ' ' :: (ds ++ (')' :: ' ' :: 'A' :: 'S' :: post))))⟩
      = ⟨pre ++ "round(".data ++ expr ++ ") AS".data
          ++ CypherTranslator.replaceRoundF post.length true post⟩ := by
  have htail : CypherTranslator.tryRoundTail
      (',' :: ' ' :: (ds ++ (')' :: ' ' :: 'A' :: 'S' :: post))) = some post :=
    CypherTranslator.tryRoundTail_canonical hne hds hpost
  have htr : CypherTranslator.tryRound
      ("round(".data ++ expr ++ (',' :: ' ' :: (ds ++ (')' :: ' ' :: 'A' :: 'S' :: post))))
      = some (expr, post) :=
    CypherTranslator.tryRound_canonical hstop htail
  have hmid_ne : ("round(".data ++ expr
      ++ (',' :: ' ' :: (ds ++ (')' :: ' ' :: 'A' :: 'S' :: post)))) ≠ ([] : List Char) := by
    simp
  have hfr_mid := CypherTranslator.findRound_head htr hmid_ne
  have hfr : CypherTranslator.findRound false
      (pre ++ ("round(".data ++ expr ++ (',' :: ' ' :: (ds ++ (')' :: ' ' :: 'A' :: 'S' :: post)))))
      = some (pre, expr, post) := by
    rw [CypherTranslator.findRound_append hpre, hflag, hfr_mid]
    simp
  have hlen := CypherTranslator.findRound_length hfr
  show (⟨CypherTranslator.replaceRoundF
      (pre ++ ("round(".data ++ expr ++ (',' :: ' ' :: (ds ++ (')' :: ' ' :: 'A' :: 'S' :: post))))).length
      false
      (pre ++ ("round(".data ++ expr ++ (',' :: ' ' :: (ds ++ (')' :: ' ' :: 'A' :: 'S' :: post)))))⟩
      : String) = _
  obtain ⟨n, hn⟩ : ∃ n,
      (pre ++ ("round(".data ++ expr
        ++ (',' :: ' ' :: (ds ++ (')' :: ' ' :: 'A' :: 'S' :: post))))).length = n + 1 := by
    refine ⟨(pre ++ ("round(".data ++ expr
        ++ (',' :: ' ' :: (ds ++ (')' :: ' ' :: 'A' :: 'S' :: post))))).length - 1, ?_⟩
    have hpos : 0 < (pre ++ ("round(".data ++ expr
        ++ (',' :: ' ' :: (ds ++ (')' :: ' ' :: 'A' :: 'S' :: post))))).length := by
      simp
    omega
  rw [hn] at hlen
  rw [hn]
  conv_lhs => rw [CypherTranslator.replaceRoundF]
  simp only [hfr]
  have hfuel : CypherTranslator.replaceRoundF n true post
      = CypherTranslator.replaceRoundF post.length true post :=
    CypherTranslator.replaceRoundF_fuel (by omega) (le_refl _)
  rw [hfuel]

/-- **C9**: a query containing none of the three target patterns (elementId
call, round-with-precision before AS, APOC merge-relationship call) is
returned unchanged by `translate`, and the returned parameter map holds
exactly the original key/value pairs. -/
theorem C9_translate_pass_through (q : String) (params : ParamsMap)
    (h1 : CypherTranslator.findElementId false q.data = none)
    (h2 : CypherTranslator.findRound false q.data = none)
    (h3 : CypherTranslator.findApoc q.data = none) :
    CypherTranslator.translate q params = (q, params) := by
  have e1 : CypherTranslator.translateElementId q = q := by
    show (⟨CypherTranslator.replaceElementIdF q.data.length false q.data⟩ : String) = q
    rw [CypherTranslator.replaceElementIdF_none h1]
  have e2 : CypherTranslator.translateRound q = q := by
    show (⟨CypherTranslator.replaceRoundF q.data.length false q.data⟩ : String) = q
    rw [CypherTranslator.replaceRoundF_none h2]
  show CypherTranslator.translateApocMergeRelationship
      (CypherTranslator.translateRound (CypherTranslator.translateElementId q)) params
      = (q, params)
  rw [e1, e2]
  show (⟨(CypherTranslator.replaceApocF q.data.length q.data params).1⟩,
        (CypherTranslator.replaceApocF q.data.length q.data params).2) = (q, params)
  rw [CypherTranslator.replaceApocF_none h3]

/-- **C8** (amended): a query matching the APOC merge-relationship pattern is
rewritten to `MERGE (<sourceVar>)-[<yieldVar>:<RelType>]->(<targetVar>)`;
`<RelType>` is the backtick-quoted params value under the captured parameter
name when that value is present and truthy, in which case the parameter is
removed from the returned map; when the parameter is absent — or present but
falsy (e.g. the empty string) — the fixed default `` `RELATED_TO` `` is used
and the params map is left unchanged. -/
theorem C8_apoc_merge_rewrite (q : String) (params : ParamsMap)
    (pre : List Char) (caps : CypherTranslator.ApocCaps) (rest : List Char)
    (hfind : CypherTranslator.findApoc q.data = some (pre, caps, rest)) :
    CypherTranslator.translateApocMergeRelationship q params
      = (⟨pre ++ (CypherTranslator.apocReplacement params caps).1
            ++ (CypherTranslator.replaceApocF rest.length rest
                  (CypherTranslator.apocReplacement params caps).2).1⟩,
         (CypherTranslator.replaceApocF rest.length rest
            (CypherTranslator.apocReplacement params caps).2).2)
    ∧ (∀ v, pLookup params ⟨caps.relTypeParam⟩ = some v → v.truthy = true →
        CypherTranslator.apocReplacement params caps
          = ("MERGE (".data ++ caps.sourceVar ++ ")-[".data ++ caps.yieldVar
              ++ [':'] ++ ('`' :: v.toJSString.data ++ ['`']) ++ "]->(".data
              ++ caps.targetVar ++ [')'],
             pErase params ⟨caps.relTypeParam⟩))
    ∧ (pLookup params ⟨caps.relTypeParam⟩ = none →
        CypherTranslator.apocReplacement params caps
          = ("MERGE (".data ++ caps.sourceVar ++ ")-[".data ++ caps.yieldVar
              ++ [':'] ++ "`RELATED_TO`".data ++ "]->(".data ++ caps.targetVar ++ [')'],
             params))
    ∧ (∀ v, pLookup params ⟨caps.relTypeParam⟩ = some v → v.truthy = false →
        CypherTranslator.apocReplacement params caps
          = ("MERGE (".data ++ caps.sourceVar ++ ")-[".data ++ caps.yieldVar
              ++ [':'] ++ "`RELATED_TO`".data ++ "]->(".data ++ caps.targetVar ++ [')'],
             params)) := by
  refine ⟨?_, ?_, ?_, ?_⟩
  · have hne : q.data ≠ [] := by
      intro hq
      rw [hq] at hfind
      simp [CypherTranslator.findApoc] at hfind
    obtain ⟨n, hn⟩ : ∃ n, q.data.length = n + 1 := by
      cases hb : q.data.length with
      | zero => exact absurd (List.length_eq_zero.mp hb) hne
      | succ n => exact ⟨n, rfl⟩
    have hlen := CypherTranslator.findApoc_length hfind
    rw [hn] at hlen
    show (((⟨(CypherTranslator.replaceApocF q.data.length q.data params).1⟩ : String),
          (CypherTranslator.replaceApocF q.data.length q.data params).2)
            : String × ParamsMap) = _
    rw [hn]
    conv_lhs => rw [CypherTranslator.replaceApocF]
    simp only [hfind]
    have hfuel : CypherTranslator.replaceApocF n rest
          (CypherTranslator.apocReplacement params caps).2
        = CypherTranslator.replaceApocF rest.length rest
            (CypherTranslator.apocReplacement params caps).2 :=
      CypherTranslator.replaceApocF_fuel (by omega) (le_refl _)
    rw [hfuel]
  · intro v hv htruthy
    simp [CypherTranslator.apocReplacement, hv, htruthy]
  · intro hv
    simp [CypherTranslator.apocReplacement, hv]
  · intro v hv htruthy
    simp [CypherTranslator.apocReplacement, hv, htruthy]

/-- **C8** counterexample to the claim as stated: with the parameter present
but holding the empty string (a falsy value), the query matches the APOC
pattern, yet the rewrite uses the default `` `RELATED_TO` `` instead of the
backtick-quoted looked-up value, and the parameter is NOT removed from the
returned params map. -/
theorem C8_apoc_merge_rewrite_cex :
    (CypherTranslator.translate
        "CALL apoc.merge.relationship(a, $relType, {}, {}, b) YIELD rel"
        [("relType", PVal.str "")]).2 = [("relType", PVal.str "")]
    ∧ (CypherTranslator.translate
        "CALL apoc.merge.relationship(a, $relType, {}, {}, b) YIELD rel"
        [("relType", PVal.str "")]).1 = "MERGE (a)-[rel:`RELATED_TO`]->(b)"
    ∧ (CypherTranslator.translate
        "CALL apoc.merge.relationship(a, $relType, {}, {}, b) YIELD rel"
        [("relType", PVal.str "")]).1 ≠ "MERGE (a)-[rel:``]->(b)" := by
  refine ⟨by decide, by decide, by decide⟩

-- ── object-identity model for the params record (frame claim) ───────────

/-- A tiny heap of JavaScript objects: each live params object sits at a
numeric reference. -/
def heapGet : List (ℕ × ParamsMap) → ℕ → ParamsMap
  | [], _ => []
  | (r', m) :: rest, r => if r' = r then m else heapGet rest r

/-- In-place update of the object at a reference. -/
def heapSet : List (ℕ × ParamsMap) → ℕ → ParamsMap → List (ℕ × ParamsMap)
  | [], _, _ => []
  | (r', m) :: rest, r, m2 =>
    if r' = r then (r', m2) :: rest else (r', m) :: heapSet rest r m2

/-- A reference unused by the heap. -/
def heapFresh (h : List (ℕ × ParamsMap)) : ℕ :=
  h.foldr (fun e acc => max (e.1 + 1) acc) 0

theorem heapFresh_gt {h : List (ℕ × ParamsMap)} {e : ℕ × ParamsMap} (he : e ∈ h) :
    e.1 < heapFresh h := by
  induction h with
  | nil => simp at he
  | cons a as ih =>
    have hstep : heapFresh (a :: as) = max (a.1 + 1) (heapFresh as) := rfl
    rcases List.mem_cons.mp he with rfl | he2
    · rw [hstep]
      exact lt_of_lt_of_le (Nat.lt_succ_self _) (le_max_left _ _)
    · rw [hstep]
      exact lt_of_lt_of_le (ih he2) (le_max_right _ _)

namespace CypherTranslator

/-- `CypherTranslator.translate` with the params record passed by reference:
`const translatedParams = ...params` (object spread) allocates a fresh
object holding the same pairs, the APOC rewrite then deletes from that
object in place, and the copy's reference is what the function hands on. -/
def translateRef (h : List (ℕ × ParamsMap)) (pRef : ℕ) (query : String) :
    List (ℕ × ParamsMap) × ℕ × String :=
  let params := heapGet h pRef
  let cRef := heapFresh h
  let h1 := (cRef, params) :: h
  let t1 := translateElementId query
  let t2 := translateRound t1
  let res := replaceApocF t2.data.length t2.data (heapGet h1 cRef)
  (heapSet h1 cRef res.2, cRef, ⟨res.1⟩)

end CypherTranslator

/-- **C10**: `translate` never mutates the caller's params object: the copy
gets a fresh reference distinct from the caller's, all mutation lands on the
copy, so after the call the caller's reference still holds exactly its
original key/value pairs — and the copy holds the value-level `translate`
result. -/
theorem C10_translate_no_caller_mutation (h : List (ℕ × ParamsMap)) (pRef : ℕ) (q : String)
    (hmem : pRef ∈ h.map (fun e => e.1)) :
    heapGet (CypherTranslator.translateRef h pRef q).1 pRef = heapGet h pRef
    ∧ (CypherTranslator.translateRef h pRef q).2.1 ≠ pRef
    ∧ heapGet (CypherTranslator.translateRef h pRef q).1
          (CypherTranslator.translateRef h pRef q).2.1
        = (CypherTranslator.translate q (heapGet h pRef)).2 := by
  obtain ⟨e, he, heq⟩ := List.mem_map.mp hmem
  have hfr : pRef < heapFresh h := heq ▸ heapFresh_gt he
  have hne : heapFresh h ≠ pRef := by omega
  have hget_c : heapGet ((heapFresh h, heapGet h pRef) :: h) (heapFresh h)
      = heapGet h pRef := by
    simp [heapGet]
  have hset : heapSet ((heapFresh h, heapGet h pRef) :: h) (heapFresh h)
        (CypherTranslator.replaceApocF
          (CypherTranslator.translateRound (CypherTranslator.translateElementId q)).data.length
          (CypherTranslator.translateRound (CypherTranslator.translateElementId q)).data
          (heapGet ((heapFresh h, heapGet h pRef) :: h) (heapFresh h))).2
      = (heapFresh h,
          (CypherTranslator.replaceApocF
            (CypherTranslator.translateRound (CypherTranslator.translateElementId q)).data.length
            (CypherTranslator.translateRound (CypherTranslator.translateElementId q)).data
            (heapGet ((heapFresh h, heapGet h pRef) :: h) (heapFresh h))).2) :: h := by
    simp [heapSet]
  refine ⟨?_, ?_, ?_⟩
  · show heapGet (heapSet ((heapFresh h, heapGet h pRef) :: h) (heapFresh h) _) pRef = _
    rw [hset]
    simp [heapGet, hne]
  · exact hne
  · show heapGet (heapSet ((heapFresh h, heapGet h pRef) :: h) (heapFresh h) _) (heapFresh h) = _
    rw [hset]
    simp [heapGet]
    rfl

-- ── concrete witness data for the translator claims ─────────────────────

/-- Witness prefix: ordinary query text with no round trigger. -/
def roundWpre : List Char := "WITH n, ".data

/-- Witness expression: nested parentheses and a newline, as in the cosine
similarity pattern the engine sends. -/
def roundWexpr : List Char := "reduce(dot, l2(a))\n / (sqrt(x) * sqrt(y))".data

/-- Witness precision digits. -/
def roundWds : List Char := ['4']

/-- Witness text after the match. -/
def roundWpost : List Char := " similarity".data

theorem C7_round_precision_rewrite_witness :
    (CypherTranslator.roundScanClear
        ("round(".data ++ roundWexpr
          ++ (',' :: ' ' :: (roundWds ++ (')' :: ' ' :: 'A' :: 'S' :: roundWpost))))
        false roundWpre = true)
    ∧ (JSChar.flagAfter false roundWpre = false)
    ∧ (CypherTranslator.tailStops
        (',' :: ' ' :: (roundWds ++ (')' :: ' ' :: 'A' :: 'S' :: roundWpost)))
        roundWexpr = true)
    ∧ (roundWds ≠ [])
    ∧ (∀ c ∈ roundWds, c.isDigit = true)
    ∧ (JSChar.notWordHead roundWpost = true)
    ∧ CypherTranslator.translateRound
        ⟨roundWpre ++ ("round(".data ++ roundWexpr
          ++ (',' :: ' ' :: (roundWds ++ (')' :: ' ' :: 'A' :: 'S' :: roundWpost))))⟩
      = ⟨roundWpre ++ "round(".data ++ roundWexpr ++ ") AS".data
          ++ CypherTranslator.replaceRoundF roundWpost.length true roundWpost⟩ :=
  ⟨by decide, by decide, by decide, by decide, by decide, by decide,
   C7_round_precision_rewrite roundWpre roundWexpr roundWds roundWpost
     (by decide) (by decide) (by decide) (by decide) (by decide) (by decide)⟩

theorem C9_translate_pass_through_witness :
    (CypherTranslator.findElementId false
        "MATCH (n) WHERE n.user_id = $user_id RETURN n".data = none)
    ∧ (CypherTranslator.findRound false
        "MATCH (n) WHERE n.user_id = $user_id RETURN n".data = none)
    ∧ (CypherTranslator.findApoc
        "MATCH (n) WHERE n.user_id = $user_id RETURN n".data = none)
    ∧ CypherTranslator.translate "MATCH (n) WHERE n.user_id = $user_id RETURN n"
        [("user_id", PVal.str "alice")]
      = ("MATCH (n) WHERE n.user_id = $user_id RETURN n", [("user_id", PVal.str "alice")]) :=
  ⟨by decide, by decide, by decide,
   C9_translate_pass_through _ _ (by decide) (by decide) (by decide)⟩

/-- The spec's APOC example query. -/
def apocWq : String := "CALL apoc.merge.relationship(a, $relType, {}, {}, b) YIELD rel"

/-- The spec's APOC example params, plus an unrelated entry. -/
def apocWparams : ParamsMap := [("relType", PVal.str "KNOWS"), ("other", PVal.str "value")]

/-- The captures of the APOC example. -/
def apocWcaps : CypherTranslator.ApocCaps := ⟨"a".data, "relType".data, "b".data, "rel".data⟩

theorem C8_apoc_merge_rewrite_witness :
    (CypherTranslator.findApoc apocWq.data = some ([], apocWcaps, []))
    ∧ CypherTranslator.translateApocMergeRelationship apocWq apocWparams
      = (⟨[] ++ (CypherTranslator.apocReplacement apocWparams apocWcaps).1
            ++ (CypherTranslator.replaceApocF ([] : List Char).length ([] : List Char)
                  (CypherTranslator.apocReplacement apocWparams apocWcaps).2).1⟩,
         (CypherTranslator.replaceApocF ([] : List Char).length ([] : List Char)
            (CypherTranslator.apocReplacement apocWparams apocWcaps).2).2)
    ∧ CypherTranslator.apocReplacement apocWparams apocWcaps
      = ("MERGE (".data ++ apocWcaps.sourceVar ++ ")-[".data ++ apocWcaps.yieldVar
          ++ [':'] ++ ('`' :: (PVal.str "KNOWS").toJSString.data ++ ['`']) ++ "]->(".data
          ++ apocWcaps.targetVar ++ [')'],
         pErase apocWparams ⟨apocWcaps.relTypeParam⟩) :=
  ⟨by decide,
   (C8_apoc_merge_rewrite apocWq apocWparams [] apocWcaps [] (by decide)).1,
   (C8_apoc_merge_rewrite apocWq apocWparams [] apocWcaps [] (by decide)).2.1
     (PVal.str "KNOWS") (by decide) (by decide)⟩

/-- A one-object heap for the aliasing witness. -/
def heapW : List (ℕ × ParamsMap) := [(0, apocWparams)]

theorem C10_translate_no_caller_mutation_witness :
    (0 ∈ heapW.map (fun e => e.1))
    ∧ (heapGet (CypherTranslator.translateRef heapW 0 apocWq).1 0 = heapGet heapW 0
        ∧ (CypherTranslator.translateRef heapW 0 apocWq).2.1 ≠ 0
        ∧ heapGet (CypherTranslator.translateRef heapW 0 apocWq).1
              (CypherTranslator.translateRef heapW 0 apocWq).2.1
            = (CypherTranslator.translate apocWq (heapGet heapW 0)).2) :=
  ⟨by decide, C10_translate_no_caller_mutation heapW 0 apocWq (by decide)⟩

-- ════════════════════════════════════════════════════════════════════════
-- FalkorMemoryGraph.ts — BM25 re-ranking
-- ════════════════════════════════════════════════════════════════════════

/-- Stable insertion into a descending-sorted list: the new element goes
after every already-sorted element of greater-or-equal score. -/
def insDesc {α : Type} (score : α → ℚ) (x : α) : List α → List α
  | [] => [x]
  | y :: ys => if score x < score y then y :: insDesc score x ys else x :: y :: ys

/-- Stable sort by descending rational score: the embedding of
`Array.prototype.sort((a, b) => b.score - a.score)` (stable per ES2019). -/
def sortByScoreDesc {α : Type} (score : α → ℚ) : List α → List α
  | [] => []
  | x :: xs => insDesc score x (sortByScoreDesc score xs)

theorem insDesc_length {α : Type} (score : α → ℚ) (x : α) (l : List α) :
    (insDesc score x l).length = l.length + 1 := by
  induction l with
  | nil => rfl
  | cons y ys ih =>
    simp only [insDesc]
    split
    · simp [ih]
    · simp

theorem sortByScoreDesc_length {α : Type} (score : α → ℚ) (l : List α) :
    (sortByScoreDesc score l).length = l.length := by
  induction l with
  | nil => rfl
  | cons x xs ih => simp [sortByScoreDesc, insDesc_length, ih]

theorem mem_insDesc {α : Type} {score : α → ℚ} {x y : α} {l : List α} :
    y ∈ insDesc score x l ↔ y = x ∨ y ∈ l := by
  induction l with
  | nil => simp [insDesc]
  | cons z zs ih =>
    simp only [insDesc]
    split
    · simp only [List.mem_cons, ih]
      tauto
    · simp [List.mem_cons]

theorem mem_sortByScoreDesc {α : Type} {score : α → ℚ} {y : α} {l : List α} :
    y ∈ sortByScoreDesc score l ↔ y ∈ l := by
  induction l with
  | nil => simp [sortByScoreDesc]
  | cons x xs ih =>
    simp [sortByScoreDesc, mem_insDesc, ih]

theorem insDesc_pairwise {α : Type} {score : α → ℚ} {x : α} {l : List α}
    (h : List.Pairwise (fun a b => score b ≤ score a) l) :
    List.Pairwise (fun a b => score b ≤ score a) (insDesc score x l) := by
  induction l with
  | nil => simp [insDesc]
  | cons y ys ih =>
    rcases List.pairwise_cons.mp h with ⟨hy, hys⟩
    simp only [insDesc]
    split
    · rename_i hlt
      refine List.pairwise_cons.mpr ⟨?_, ih hys⟩
      intro a ha
      rcases mem_insDesc.mp ha with rfl | ha2
      · exact le_of_lt hlt
      · exact hy a ha2
    · rename_i hnlt
      refine List.pairwise_cons.mpr ⟨?_, h⟩
      intro a ha
      rcases List.mem_cons.mp ha with rfl | ha2
      · exact le_of_not_lt hnlt
      · exact le_trans (hy a ha2) (le_of_not_lt hnlt)

theorem sortByScoreDesc_sorted {α : Type} (score : α → ℚ) (l : List α) :
    List.Pairwise (fun a b => score b ≤ score a) (sortByScoreDesc score l) := by
  induction l with
  | nil => exact List.Pairwise.nil
  | cons x xs ih => exact insDesc_pairwise ih

theorem insDesc_head_front {α : Type} {score : α → ℚ} {x : α} {l : List α}
    (h : ∀ y ∈ l.head?, ¬ score x < score y) :
    (insDesc score x l).head? = some x := by
  cases l with
  | nil => rfl
  | cons y ys =>
    have hy := h y (by simp)
    simp [insDesc, hy]

theorem sortByScoreDesc_head_of_strict_max {α : Type} {score : α → ℚ} {x : α} {l : List α}
    (hx : x ∈ l) (hmax : ∀ y ∈ l, y = x ∨ score y < score x) :
    (sortByScoreDesc score l).head? = some x := by
  induction l with
  | nil => simp at hx
  | cons a as ih =>
    simp only [sortByScoreDesc]
    rcases List.mem_cons.mp hx with rfl | hx2
    · apply insDesc_head_front
      intro y hy
      have hy_mem : y ∈ sortByScoreDesc score as := by
        cases hs : sortByScoreDesc score as with
        | nil => rw [hs] at hy; simp at hy
        | cons z zs => rw [hs] at hy; simp at hy; simp [hs, hy]
      have := hmax y (List.mem_cons.mpr (Or.inr (mem_sortByScoreDesc.mp hy_mem)))
      rcases this with rfl | hlt
      · exact lt_irrefl _
      · exact not_lt_of_lt hlt
    · have ha := hmax a (by simp)
      rcases ha with rfl | halt
      · -- a = x: insert x in front again
        apply insDesc_head_front
        intro y hy
        have hy_mem : y ∈ sortByScoreDesc score as := by
          cases hs : sortByScoreDesc score as with
          | nil => rw [hs] at hy; simp at hy
          | cons z zs => rw [hs] at hy; simp at hy; simp [hs, hy]
        have := hmax y (List.mem_cons.mpr (Or.inr (mem_sortByScoreDesc.mp hy_mem)))
        rcases this with rfl | hlt
        · exact lt_irrefl _
        · exact not_lt_of_lt hlt
      · have hih := ih hx2 (fun y hy => hmax y (List.mem_cons.mpr (Or.inr hy)))
        cases hs : sortByScoreDesc score as with
        | nil => rw [hs] at hih; simp at hih
        | cons z zs =>
          rw [hs] at hih
          simp at hih
          subst hih
          simp [insDesc, halt]

/-- The `BM25` class state after its constructor ran.  `log` is the
collaborator `Math.log`; `docFreq` and `idf` are Maps in the source whose
contents are exactly the functions `BM25.docFreq` / `BM25.idfOf` tabulate
over the terms occurring in the documents. -/
structure BM25 where
  log : ℚ → ℚ
  documents : List (List String)
  k1 : ℚ
  b : ℚ
  docLengths : List ℕ
  avgDocLength : ℚ

/-- `new BM25(documents, k1, b)` (the callers use the defaults
`k1 = 1.5`, `b = 0.75`). -/
def BM25.make (log : ℚ → ℚ) (documents : List (List String)) (k1 b : ℚ) : BM25 :=
  { log := log
    documents := documents
    k1 := k1
    b := b
    docLengths := documents.map List.length
    avgDocLength :=
      (((documents.map List.length).foldl (fun a b2 => a + b2) 0 : ℕ) : ℚ) / documents.length }

/-- The `docFreq` map: in how many documents a term occurs. -/
def BM25.docFreq (bm : BM25) (term : String) : ℕ :=
  (bm.documents.filter (fun doc => doc.contains term)).length

/-- The `idf` map, read with `this.idf.get(term) || 0` (a term in no
document is absent from the map and reads as 0). -/
def BM25.idfOf (bm : BM25) (term : String) : ℚ :=
  if bm.docFreq term = 0 then 0
  else bm.log (((bm.documents.length : ℚ) - bm.docFreq term + 1/2)
        / ((bm.docFreq term : ℚ) + 1/2) + 1)

/-- `BM25.score(query, doc, index)`. -/
def BM25.score (bm : BM25) (query : List String) (doc : List String) (index : ℕ) : ℚ :=
  query.foldl (fun s term =>
    s + bm.idfOf term * ((doc.filter (fun t => t == term)).length : ℚ) * (bm.k1 + 1)
      / (((doc.filter (fun t => t == term)).length : ℚ)
          + bm.k1 * (1 - bm.b + bm.b * (bm.docLengths.getD index 0 : ℚ) / bm.avgDocLength))) 0

/-- `BM25.search(query)`: score every document, sort descending (stable),
return the documents. -/
def BM25.search (bm : BM25) (query : List String) : List (List String) :=
  let scores := bm.documents.enum.map (fun p => (p.2, bm.score query p.2 p.1))
  (sortByScoreDesc (fun item => item.2) scores).map (fun item => item.1)

/-- A `(source, relationship, destination)` triple. -/
structure EntityTriple where
  source : String
  relationship : String
  destination : String
deriving DecidableEq, Repr

/-- One row of `_searchGraphDb`'s result. -/
structure SearchOutputItem where
  source : String
  source_id : String
  relationship : String
  relation_id : String
  destination : String
  destination_id : String
  similarity : ℚ
deriving DecidableEq, Repr

/-- JavaScript `s.split(" ")` (single-space separator, keeps empty pieces). -/
def splitOnSpaceAux : List Char → List Char → List String
  | [], acc => [⟨acc.reverse⟩]
  | c :: cs, acc =>
    if c = ' ' then ⟨acc.reverse⟩ :: splitOnSpaceAux cs []
    else splitOnSpaceAux cs (c :: acc)

/-- JavaScript `query.split(" ")`. -/
def jsSplitSpace (s : String) : List String := splitOnSpaceAux s.data []

/-- The re-ranking tail of `FalkorMemoryGraph.search` (everything after the
store recall): empty recall short-circuits; otherwise each hit becomes the
3-token document `[source, relationship, destination]`, BM25 re-ranks them
against the whitespace-tokenized query, and the top 5 come back as
triples. -/
def searchRerank (log : ℚ → ℚ) (query : String)
    (searchOutput : List SearchOutputItem) : List EntityTriple :=
  if searchOutput.length = 0 then []
  else
    let searchOutputsSequence := searchOutput.map
      (fun item => [item.source, item.relationship, item.destination])
    let bm25 := BM25.make log searchOutputsSequence 1.5 0.75
    let tokenizedQuery := jsSplitSpace query
    let rerankedResults := (bm25.search tokenizedQuery).take 5
    rerankedResults.map (fun item => ⟨item.getD 0 "", item.getD 1 "", item.getD 2 ""⟩)

theorem foldl_add_le {α : Type} (f : α → ℚ) :
    ∀ (q : List α) (s : ℚ), (∀ t ∈ q, 0 ≤ f t) →
      s ≤ q.foldl (fun s t => s + f t) s
  | [], s, _ => le_refl s
  | t :: ts, s, h => by
    simp only [List.foldl_cons]
    calc s ≤ s + f t := by have := h t (by simp); linarith
      _ ≤ _ := foldl_add_le f ts (s + f t) (fun u hu => h u (by simp [hu]))

theorem foldl_add_lt {α : Type} (f : α → ℚ) :
    ∀ (q : List α) (s : ℚ), (∀ t ∈ q, 0 ≤ f t) → (∃ t ∈ q, 0 < f t) →
      s < q.foldl (fun s t => s + f t) s
  | [], _, _, hex => by simp at hex
  | t :: ts, s, h, hex => by
    simp only [List.foldl_cons]
    rcases hex with ⟨t0, ht0mem, ht0pos⟩
    rcases List.mem_cons.mp ht0mem with rfl | hmem
    · calc s < s + f t0 := by linarith
        _ ≤ _ := foldl_add_le f ts _ (fun u hu => h u (by simp [hu]))
    · have hle : s ≤ s + f t := by have := h t (by simp); linarith
      have hrec := foldl_add_lt f ts (s + f t)
        (fun u hu => h u (by simp [hu])) ⟨t0, hmem, ht0pos⟩
      linarith

theorem BM25.score_eq_zero (bm : BM25) {query doc : List String} (index : ℕ)
    (h : ∀ t ∈ query, t ∉ doc) : bm.score query doc index = 0 := by
  unfold BM25.score
  suffices haux : ∀ (q : List String) (s : ℚ), (∀ t ∈ q, t ∉ doc) →
      q.foldl (fun s term =>
        s + bm.idfOf term * ((doc.filter (fun t => t == term)).length : ℚ) * (bm.k1 + 1)
          / (((doc.filter (fun t => t == term)).length : ℚ)
              + bm.k1 * (1 - bm.b
                  + bm.b * (bm.docLengths.getD index 0 : ℚ) / bm.avgDocLength))) s
        = s from haux query 0 h
  intro q
  induction q with
  | nil => intro s _; rfl
  | cons t ts ih =>
    intro s hq
    have ht : doc.filter (fun x => x == t) = [] := by
      rw [List.filter_eq_nil_iff]
      intro a ha hbeq
      have ha2 : a = t := by simpa using hbeq
      subst ha2
      exact hq a (by simp) ha
    simp only [List.foldl_cons]
    rw [ht]
    simp only [List.length_nil, Nat.cast_zero, mul_zero, zero_mul, zero_div, add_zero]
    exact ih s (fun u hu => hq u (by simp [hu]))

theorem BM25.score_pos (bm : BM25) (doc : List String) (index : ℕ) (query : List String)
    (hk1 : bm.k1 = 1.5) (hb : bm.b = 0.75) (havg : 0 ≤ bm.avgDocLength)
    (hlog : ∀ x : ℚ, 1 < x → 0 < bm.log x)
    (hdoc : doc ∈ bm.documents)
    (hshare : ∃ t ∈ query, t ∈ doc) :
    0 < bm.score query doc index := by
  have hden : ∀ t : String, (0:ℚ) < ((doc.filter (fun x => x == t)).length : ℚ)
      + bm.k1 * (1 - bm.b + bm.b * (bm.docLengths.getD index 0 : ℚ) / bm.avgDocLength) := by
    intro t
    rw [hk1, hb]
    have hx : (0:ℚ) ≤ (0.75:ℚ) * (bm.docLengths.getD index 0 : ℚ) / bm.avgDocLength :=
      div_nonneg (mul_nonneg (by norm_num) (Nat.cast_nonneg _)) havg
    have htf : (0:ℚ) ≤ ((doc.filter (fun x => x == t)).length : ℚ) := Nat.cast_nonneg _
    nlinarith
  have hidf_nonneg : ∀ t : String, 0 ≤ bm.idfOf t := by
    intro t
    unfold BM25.idfOf
    split
    · exact le_refl 0
    · rename_i hdf
      have hdfpos : 1 ≤ bm.docFreq t := Nat.one_le_iff_ne_zero.mpr hdf
      have hdfle : bm.docFreq t ≤ bm.documents.length := List.length_filter_le ..
      have harg : (1:ℚ) < ((bm.documents.length : ℚ) - bm.docFreq t + 1/2)
          / ((bm.docFreq t : ℚ) + 1/2) + 1 := by
        have hd : (0:ℚ) < (bm.docFreq t : ℚ) + 1/2 := by positivity
        have hn : (0:ℚ) < (bm.documents.length : ℚ) - (bm.docFreq t : ℚ) + 1/2 := by
          have : (bm.docFreq t : ℚ) ≤ (bm.documents.length : ℚ) := by exact_mod_cast hdfle
          linarith
        have := div_pos hn hd
        linarith
      exact le_of_lt (hlog _ harg)
  unfold BM25.score
  refine foldl_add_lt
    (f := fun term => bm.idfOf term * ((doc.filter (fun t => t == term)).length : ℚ)
        * (bm.k1 + 1)
      / (((doc.filter (fun t => t == term)).length : ℚ)
          + bm.k1 * (1 - bm.b + bm.b * (bm.docLengths.getD index 0 : ℚ) / bm.avgDocLength)))
    query 0 ?_ ?_
  · intro t _
    apply div_nonneg
    · apply mul_nonneg
      apply mul_nonneg (hidf_nonneg t) (Nat.cast_nonneg _)
      rw [hk1]; norm_num
    · exact le_of_lt (hden t)
  · obtain ⟨t0, ht0q, ht0d⟩ := hshare
    refine ⟨t0, ht0q, ?_⟩
    have htf : (0:ℚ) < ((doc.filter (fun x => x == t0)).length : ℚ) := by
      have : 0 < (doc.filter (fun x => x == t0)).length := by
        rw [List.length_pos]
        intro hnil
        have := List.filter_eq_nil_iff.mp hnil t0 ht0d
        simp at this
      exact_mod_cast this
    have hdf : bm.docFreq t0 ≠ 0 := by
      unfold BM25.docFreq
      have hmem : doc ∈ bm.documents.filter (fun dd => dd.contains t0) :=
        List.mem_filter.mpr ⟨hdoc, List.elem_iff.mpr ht0d⟩
      have : 0 < (bm.documents.filter (fun dd => dd.contains t0)).length :=
        List.length_pos.mpr (List.ne_nil_of_mem hmem)
      omega
    have hidf : 0 < bm.idfOf t0 := by
      unfold BM25.idfOf
      rw [if_neg hdf]
      have hdfpos : 1 ≤ bm.docFreq t0 := Nat.one_le_iff_ne_zero.mpr hdf
      have hdfle : bm.docFreq t0 ≤ bm.documents.length := List.length_filter_le ..
      apply hlog
      have hd : (0:ℚ) < (bm.docFreq t0 : ℚ) + 1/2 := by positivity
      have hn : (0:ℚ) < (bm.documents.length : ℚ) - (bm.docFreq t0 : ℚ) + 1/2 := by
        have : (bm.docFreq t0 : ℚ) ≤ (bm.documents.length : ℚ) := by exact_mod_cast hdfle
        linarith
      have := div_pos hn hd
      linarith
    apply div_pos
    · apply mul_pos (mul_pos hidf htf)
      rw [hk1]; norm_num
    · exact hden t0

theorem BM25.score_congr_index (bm : BM25) (query doc : List String) {i j : ℕ}
    (h : bm.docLengths.getD i 0 = bm.docLengths.getD j 0) :
    bm.score query doc i = bm.score query doc j := by
  unfold BM25.score
  simp only [h]

theorem enum_docLength {β : Type} {docs : List (List β)} {p : ℕ × List β}
    (hp : p ∈ docs.enum) : (docs.map List.length).getD p.1 0 = p.2.length := by
  have h := List.mem_enum_iff_getElem?.mp hp
  have h2 : (docs.map List.length)[p.1]? = some p.2.length := by
    rw [List.getElem?_map, h]
    rfl
  rw [List.getD_eq_getElem?_getD, h2]
  rfl

theorem enum_snd_mem {β : Type} {l : List β} {p : ℕ × β} (hp : p ∈ l.enum) : p.2 ∈ l := by
  have h := List.mem_enum_iff_getElem?.mp hp
  obtain ⟨hlt, heq⟩ := List.getElem?_eq_some_iff.mp h
  exact heq ▸ List.getElem_mem hlt

theorem enum_middle {β : Type} (pre suf : List β) (d : β) :
    (pre.length, d) ∈ (pre ++ d :: suf).enum := by
  apply List.mem_enum_iff_getElem?.mpr
  show (pre ++ d :: suf)[pre.length]? = some d
  rw [List.getElem?_append_right (le_refl _)]
  simp

set_option maxHeartbeats 1000000 in
/-- **C6**: BM25 re-ranking orders the scored documents by descending score,
and when the query shares terms with exactly one document, that document
ranks first.  `log` abstracts `Math.log`; the only property used is that the
logarithm is positive above 1, which holds of `Math.log` on every IDF
argument this code produces. -/
theorem C6_bm25_ranks_sharing_document_first (log : ℚ → ℚ)
    (hlog : ∀ x : ℚ, 1 < x → 0 < log x)
    (pre suf : List (List String)) (d : List String) (query : List String)
    (hshare : ∃ t ∈ query, t ∈ d)
    (hothers : ∀ e ∈ pre ++ suf, ∀ t ∈ query, t ∉ e) :
    ((BM25.make log (pre ++ d :: suf) 1.5 0.75).search query).head? = some d
    ∧ List.Pairwise (fun a b => b.2 ≤ a.2)
        (sortByScoreDesc (fun item => item.2)
          ((pre ++ d :: suf).enum.map
            (fun p => (p.2, (BM25.make log (pre ++ d :: suf) 1.5 0.75).score query p.2 p.1)))) := by
  refine ⟨?_, sortByScoreDesc_sorted _ _⟩
  have hd_mem : d ∈ pre ++ d :: suf := by simp
  have havg : 0 ≤ (BM25.make log (pre ++ d :: suf) 1.5 0.75).avgDocLength :=
    div_nonneg (Nat.cast_nonneg _) (Nat.cast_nonneg _)
  have hsd_pos : 0 < (BM25.make log (pre ++ d :: suf) 1.5 0.75).score query d pre.length :=
    BM25.score_pos _ d pre.length query rfl rfl havg hlog hd_mem hshare
  have hx : (d, (BM25.make log (pre ++ d :: suf) 1.5 0.75).score query d pre.length)
      ∈ (pre ++ d :: suf).enum.map
          (fun p => (p.2, (BM25.make log (pre ++ d :: suf) 1.5 0.75).score query p.2 p.1)) :=
    List.mem_map.mpr ⟨(pre.length, d), enum_middle pre suf d, rfl⟩
  have hmax : ∀ y ∈ (pre ++ d :: suf).enum.map
      (fun p => (p.2, (BM25.make log (pre ++ d :: suf) 1.5 0.75).score query p.2 p.1)),
      y = (d, (BM25.make log (pre ++ d :: suf) 1.5 0.75).score query d pre.length)
        ∨ y.2 < (BM25.make log (pre ++ d :: suf) 1.5 0.75).score query d pre.length := by
    intro y hy
    obtain ⟨p, hp, rfl⟩ := List.mem_map.mp hy
    by_cases hpd : p.2 = d
    · left
      have hdl1 : ((pre ++ d :: suf).map List.length).getD p.1 0 = p.2.length :=
        enum_docLength hp
      have hdl2 : ((pre ++ d :: suf).map List.length).getD pre.length 0 = d.length :=
        enum_docLength (enum_middle pre suf d)
      have hsc : (BM25.make log (pre ++ d :: suf) 1.5 0.75).score query d p.1
          = (BM25.make log (pre ++ d :: suf) 1.5 0.75).score query d pre.length := by
        refine BM25.score_congr_index _ _ _ ?_
        show ((pre ++ d :: suf).map List.length).getD p.1 0
            = ((pre ++ d :: suf).map List.length).getD pre.length 0
        rw [hdl1, hdl2, hpd]
      rw [hpd, hsc]
    · right
      have hp2mem : p.2 ∈ pre ++ d :: suf := enum_snd_mem hp
      have hp2others : p.2 ∈ pre ++ suf := by
        rcases List.mem_append.mp hp2mem with h | h
        · exact List.mem_append.mpr (Or.inl h)
        · rcases List.mem_cons.mp h with h2 | h2
          · exact absurd h2 hpd
          · exact List.mem_append.mpr (Or.inr h2)
      have hzero : (BM25.make log (pre ++ d :: suf) 1.5 0.75).score query p.2 p.1 = 0 :=
        BM25.score_eq_zero _ _ (fun t ht => hothers p.2 hp2others t ht)
      show (BM25.make log (pre ++ d :: suf) 1.5 0.75).score query p.2 p.1
          < (BM25.make log (pre ++ d :: suf) 1.5 0.75).score query d pre.length
      rw [hzero]
      exact hsd_pos
  show ((sortByScoreDesc (fun item => item.2)
      ((pre ++ d :: suf).enum.map
        (fun p => (p.2, (BM25.make log (pre ++ d :: suf) 1.5 0.75).score query p.2 p.1)))).map
      (fun item => item.1)).head? = some d
  rw [List.head?_map, sortByScoreDesc_head_of_strict_max hx hmax]
  rfl

-- ════════════════════════════════════════════════════════════════════════
-- FalkorMemoryGraph.ts — graph state and the effects of its Cypher queries
-- ════════════════════════════════════════════════════════════════════════

/-- A property value stored on a node or an edge. -/
inductive PropVal where
  | str (s : String)
  | num (q : ℚ)
  | vec (v : List ℚ)
deriving DecidableEq, Repr

/-- Association-list read (JS object / stored property map). -/
def assocGet {β : Type} : List (String × β) → String → Option β
  | [], _ => none
  | (k', v) :: rest, k => if k' = k then some v else assocGet rest k

/-- Association-list write: update in place (keeping position) or append,
like assignment to a JS object key or a Cypher `SET`. -/
def assocSet {β : Type} : List (String × β) → String → β → List (String × β)
  | [], k, v => [(k, v)]
  | (k', v') :: rest, k, v =>
    if k' = k then (k', v) :: rest else (k', v') :: assocSet rest k v

/-- Apply a list of `SET` assignments. -/
def propSetAll (props sets : List (String × PropVal)) : List (String × PropVal) :=
  sets.foldl (fun ps kv => assocSet ps kv.1 kv.2) props

/-- A persisted node. -/
structure GNode where
  nid : ℕ
  labels : List String
  props : List (String × PropVal)
deriving DecidableEq, Repr

/-- A persisted edge (relationship). -/
structure GEdge where
  eid : ℕ
  relType : String
  src : ℕ
  dst : ℕ
  props : List (String × PropVal)
deriving DecidableEq, Repr

/-- The store's state for the one graph the engine talks to. -/
structure GraphState where
  nodes : List GNode
  edges : List GEdge
  nextNodeId : ℕ
  nextEdgeId : ℕ
deriving DecidableEq, Repr

/-- The empty graph. -/
def GraphState.empty : GraphState := ⟨[], [], 0, 0⟩

/-- Does a node match the pattern `(n:Label {mp})`? -/
def nodeMatches (n : GNode) (label : String) (mp : List (String × PropVal)) : Bool :=
  n.labels.contains label
    && mp.all (fun kv => decide (assocGet n.props kv.1 = some kv.2))

/-- `MERGE (n:Label {mp}) ON CREATE SET oc ON MATCH SET om`: reuse the first
matching node (applying the `ON MATCH` assignments) or create a fresh one;
returns the new state and the node's id. -/
def mergeNode (st : GraphState) (label : String)
    (mp oc om : List (String × PropVal)) : GraphState × ℕ :=
  match st.nodes.find? (fun n => nodeMatches n label mp) with
  | some n =>
    ({ st with nodes := st.nodes.map (fun m =>
        if m.nid = n.nid then { m with props := propSetAll m.props om } else m) },
     n.nid)
  | none =>
    let n : GNode := ⟨st.nextNodeId, [label], mp ++ oc⟩
    ({ st with nodes := st.nodes ++ [n], nextNodeId := st.nextNodeId + 1 },
     st.nextNodeId)

/-- `MERGE (a)-[r:RelType]->(b) ON CREATE SET oc` between two resolved node
ids: reuse the first edge of that type between them or create it. -/
def mergeEdge (st : GraphState) (srcId : ℕ) (relType : String) (dstId : ℕ)
    (oc : List (String × PropVal)) : GraphState × ℕ :=
  match st.edges.find? (fun e =>
      e.src == srcId && e.relType == relType && e.dst == dstId) with
  | some e => (st, e.eid)
  | none =>
    let e : GEdge := ⟨st.nextEdgeId, relType, srcId, dstId, oc⟩
    ({ st with edges := st.edges ++ [e], nextEdgeId := st.nextEdgeId + 1 },
     st.nextEdgeId)

/-- `MATCH (n) WHERE id(n) = nid`. -/
def nodeById (st : GraphState) (nid : ℕ) : Option GNode :=
  st.nodes.find? (fun n => n.nid == nid)

/-- A stored embedding, when the property is present and is a vector. -/
def getEmb (n : GNode) : Option (List ℚ) :=
  match assocGet n.props "embedding" with
  | some (.vec v) => some v
  | _ => none

/-- `RETURN n.name` (a missing name reads as the empty string here; the
engine only ever reads names it wrote). -/
def nameOf (n : GNode) : String :=
  match assocGet n.props "name" with
  | some (.str s) => s
  | _ => ""

/-- The Cypher of `_searchSourceNode`: tenant-filtered candidates with a
stored embedding, scored by the store's rounded cosine similarity (`sim`),
thresholded, `ORDER BY similarity DESC LIMIT 1`, returning the element id.
`_searchDestinationNode` runs the identical query shape. -/
def searchSourceNode (sim : List ℚ → List ℚ → ℚ) (st : GraphState)
    (sourceEmbedding : List ℚ) (userId : String) (threshold : ℚ) : List ℕ :=
  let cands := st.nodes.filterMap (fun n =>
    match getEmb n, assocGet n.props "user_id" with
    | some e, some u =>
      if u = PropVal.str userId then some (n, sim e sourceEmbedding) else none
    | _, _ => none)
  let hits := cands.filter (fun c => decide (threshold ≤ c.2))
  ((sortByScoreDesc (fun c => c.2) hits).take 1).map (fun c => c.1.nid)

/-- `_searchDestinationNode`: the same query shape over the destination
embedding. -/
def searchDestinationNode (sim : List ℚ → List ℚ → ℚ) (st : GraphState)
    (destinationEmbedding : List ℚ) (userId : String) (threshold : ℚ) : List ℕ :=
  searchSourceNode sim st destinationEmbedding userId threshold

/-- `entityTypeMap[name] || "unknown"` (JS: an empty-string type is falsy). -/
def typeOrUnknown (entityTypeMap : List (String × String)) (k : String) : String :=
  match assocGet entityTypeMap k with
  | some t => if t = "" then "unknown" else t
  | none => "unknown"

/-- One iteration of the `_addEntities` loop: resolve source and destination
at the default threshold 0.9, then run the Cypher of the branch taken.
`embed` is the embedder collaborator; `now` is the store's `timestamp()`. -/
def addOneEntity (sim : List ℚ → List ℚ → ℚ) (embed : String → List ℚ) (now : ℚ)
    (st : GraphState) (item : EntityTriple) (userId : String)
    (entityTypeMap : List (String × String)) : GraphState :=
  let source := item.source
  let destination := item.destination
  let relationship := item.relationship
  let sourceType := typeOrUnknown entityTypeMap source
  let destinationType := typeOrUnknown entityTypeMap destination
  let sourceEmbedding := embed source
  let destEmbedding := embed destination
  let srcRes := searchSourceNode sim st sourceEmbedding userId (9/10)
  let dstRes := searchDestinationNode sim st destEmbedding userId (9/10)
  if dstRes.isEmpty && !srcRes.isEmpty then
    -- source exists, destination is new
    match nodeById st (srcRes.headD 0) with
    | none => st
    | some _ =>
      let r1 := mergeNode st destinationType
        [("name", PropVal.str destination), ("user_id", PropVal.str userId)]
        [("created", PropVal.num now), ("embedding", PropVal.vec destEmbedding)]
        []
      (mergeEdge r1.1 (srcRes.headD 0) relationship r1.2
        [("created", PropVal.num now)]).1
  else if !dstRes.isEmpty && srcRes.isEmpty then
    -- destination exists, source is new
    match nodeById st (dstRes.headD 0) with
    | none => st
    | some _ =>
      let r1 := mergeNode st sourceType
        [("name", PropVal.str source), ("user_id", PropVal.str userId)]
        [("created", PropVal.num now), ("embedding", PropVal.vec sourceEmbedding)]
        []
      (mergeEdge r1.1 r1.2 relationship (dstRes.headD 0)
        [("created", PropVal.num now)]).1
  else if !srcRes.isEmpty && !dstRes.isEmpty then
    -- both exist
    match nodeById st (srcRes.headD 0), nodeById st (dstRes.headD 0) with
    | some _, some _ =>
      (mergeEdge st (srcRes.headD 0) relationship (dstRes.headD 0)
        [("created_at", PropVal.num now), ("updated_at", PropVal.num now)]).1
    | _, _ => st
  else
    -- neither exists
    let r1 := mergeNode st sourceType
      [("name", PropVal.str source), ("user_id", PropVal.str userId)]
      [("created", PropVal.num now), ("embedding", PropVal.vec sourceEmbedding)]
      [("embedding", PropVal.vec sourceEmbedding)]
    let r2 := mergeNode r1.1 destinationType
      [("name", PropVal.str destination), ("user_id", PropVal.str userId)]
      [("created", PropVal.num now), ("embedding", PropVal.vec destEmbedding)]
      [("embedding", PropVal.vec destEmbedding)]
    (mergeEdge r2.1 r1.2 relationship r2.2 [("created", PropVal.num now)]).1

/-- `_addEntities`: the loop over the triples to add. -/
def addEntitiesState (sim : List ℚ → List ℚ → ℚ) (embed : String → List ℚ) (now : ℚ)
    (st : GraphState) (toBeAdded : List EntityTriple) (userId : String)
    (entityTypeMap : List (String × String)) : GraphState :=
  toBeAdded.foldl (fun s item => addOneEntity sim embed now s item userId entityTypeMap) st

/-- `UNION` row-deduplication (first occurrence kept). -/
def dedupRows (seen : List SearchOutputItem) :
    List SearchOutputItem → List SearchOutputItem
  | [] => []
  | x :: xs => if x ∈ seen then dedupRows seen xs else x :: dedupRows (x :: seen) xs

/-- The rows of `_searchGraphDb`'s query for one candidate embedding:
tenant-filtered similarity hits, their outgoing and incoming edges
(UNION of both directions), ordered by similarity descending, LIMIT. -/
def searchRows (sim : List ℚ → List ℚ → ℚ) (st : GraphState) (nEmbedding : List ℚ)
    (userId : String) (threshold : ℚ) (limit : ℕ) : List SearchOutputItem :=
  let cands := st.nodes.filterMap (fun n =>
    match getEmb n, assocGet n.props "user_id" with
    | some e, some u =>
      if u = PropVal.str userId then
        if threshold ≤ sim e nEmbedding then some (n, sim e nEmbedding) else none
      else none
    | _, _ => none)
  let outgoing := cands.flatMap (fun c =>
    st.edges.filterMap (fun r =>
      if r.src = c.1.nid then
        (nodeById st r.dst).map (fun m =>
          SearchOutputItem.mk (nameOf c.1) (toString c.1.nid) r.relType (toString r.eid)
            (nameOf m) (toString m.nid) c.2)
      else none))
  let incoming := cands.flatMap (fun c =>
    st.edges.filterMap (fun r =>
      if r.dst = c.1.nid then
        (nodeById st r.src).map (fun m =>
          SearchOutputItem.mk (nameOf m) (toString m.nid) r.relType (toString r.eid)
            (nameOf c.1) (toString c.1.nid) c.2)
      else none))
  (sortByScoreDesc (fun it => it.similarity) (dedupRows [] (outgoing ++ incoming))).take limit

/-- `_searchGraphDb`: one query per extracted entity name, results
accumulated in order (`this.threshold` is 0.7). -/
def searchGraphDbState (sim : List ℚ → List ℚ → ℚ) (embed : String → List ℚ)
    (st : GraphState) (nodeList : List String) (userId : String) (limit : ℕ) :
    List SearchOutputItem :=
  nodeList.foldl (fun acc node => acc ++ searchRows sim st (embed node) userId (7/10) limit) []

/-- Does the node with this id carry the given name and user id? -/
def nodeHasNameUser (st : GraphState) (nid : ℕ) (name userId : String) : Bool :=
  match nodeById st nid with
  | some n => decide (assocGet n.props "name" = some (PropVal.str name))
      && decide (assocGet n.props "user_id" = some (PropVal.str userId))
  | none => false

/-- One `_deleteEntities` query: `MATCH (n {name, user_id})-[r:REL]->(m
{name, user_id}) DELETE r` removes every matching edge. -/
def deleteOneEntity (st : GraphState) (item : EntityTriple) (userId : String) : GraphState :=
  { st with edges := st.edges.filter (fun r =>
      !(r.relType == item.relationship
        && nodeHasNameUser st r.src item.source userId
        && nodeHasNameUser st r.dst item.destination userId)) }

/-- `_deleteEntities`: the loop over the triples to delete. -/
def deleteEntitiesState (st : GraphState) (toBeDeleted : List EntityTriple)
    (userId : String) : GraphState :=
  toBeDeleted.foldl (fun s item => deleteOneEntity s item userId) st

/-- `deleteAll`: `MATCH (n {user_id: $user_id}) DETACH DELETE n` — removes
the tenant's nodes and every edge attached to one of them. -/
def deleteAllState (st : GraphState) (userId : String) : GraphState :=
  let deletedIds := (st.nodes.filter
      (fun n => decide (assocGet n.props "user_id" = some (PropVal.str userId)))).map
      (fun n => n.nid)
  { st with
    nodes := st.nodes.filter
      (fun n => !(decide (assocGet n.props "user_id" = some (PropVal.str userId)))),
    edges := st.edges.filter
      (fun e => !(deletedIds.contains e.src) && !(deletedIds.contains e.dst)) }

/-- `getAll`: `MATCH (n {user_id})-[r]->(m {user_id}) RETURN n.name, type(r),
m.name LIMIT limit`. -/
def getAllState (st : GraphState) (userId : String) (limit : ℕ) :
    List (String × String × String) :=
  (st.edges.filterMap (fun e =>
    match nodeById st e.src, nodeById st e.dst with
    | some n, some m =>
      if decide (assocGet n.props "user_id" = some (PropVal.str userId))
          && decide (assocGet m.props "user_id" = some (PropVal.str userId)) then
        some (nameOf n, e.relType, nameOf m)
      else none
    | _, _ => none)).take limit

-- ════════════════════════════════════════════════════════════════════════
-- FalkorMemoryGraph.ts — LLM-output extraction, add and search composition
-- ════════════════════════════════════════════════════════════════════════

/-- A tool call of an LLM response. -/
structure ToolCall where
  name : String
  arguments : String
deriving DecidableEq, Repr

/-- An LLM response: plain text, or a structured response whose `toolCalls`
field may be absent. -/
inductive LLMResult where
  | text (s : String)
  | resp (toolCalls : Option (List ToolCall))
deriving DecidableEq, Repr

/-- `s.toLowerCase().replace(/ /g, "_")` (lowercasing cannot produce a
space, so folding the two passes per character is exact). -/
def normalizeName (s : String) : String :=
  ⟨s.data.map (fun c => if c.toLower = ' ' then '_' else c.toLower)⟩

/-- The loop inside `_retrieveNodesFromData`'s try block, walking the tool
calls and building the `entityTypeMap` object. `parseEntities` abstracts
`JSON.parse` of the arguments string followed by the read of `.entities`
as (entity, entityType) pairs; a parse failure raises out of the loop, is
caught, and only logged — the entries accumulated so far survive. -/
def entityLoop (parseEntities : String → Except String (List (String × String))) :
    List ToolCall → List (String × String) → List (String × String)
  | [], acc => acc
  | c :: cs, acc =>
    if c.name = "extract_entities" then
      match parseEntities c.arguments with
      | .error _ => acc
      | .ok items => entityLoop parseEntities cs
          (items.foldl (fun m it => assocSet m it.1 it.2) acc)
    else entityLoop parseEntities cs acc

/-- `_retrieveNodesFromData`: build the entity→type map from the tool
calls, then normalize both keys and values (`Object.fromEntries` of the
normalized entries: later entries overwrite earlier ones). -/
def retrieveNodesFromData
    (parseEntities : String → Except String (List (String × String)))
    (response : LLMResult) : List (String × String) :=
  let entityTypeMap : List (String × String) :=
    match response with
    | .text _ => []
    | .resp none => []
    | .resp (some calls) => entityLoop parseEntities calls []
  (entityTypeMap.map (fun kv => (normalizeName kv.1, normalizeName kv.2))).foldl
    (fun m kv => assocSet m kv.1 kv.2) []

/-- `_removeSpacesFromEntities`: normalize every field of every triple. -/
def removeSpacesFromEntities (entityList : List EntityTriple) : List EntityTriple :=
  entityList.map (fun item =>
    ⟨normalizeName item.source, normalizeName item.relationship,
     normalizeName item.destination⟩)

/-- `_establishNodesRelationsFromData`. `parseRelations` abstracts
`JSON.parse` of the first tool call's arguments followed by the read of
`.entities` (`none` models a parse result without a truthy `entities`
field, which `args.entities || []` turns into `[]`). There is no
try/catch here: a parse failure propagates to the caller. -/
def establishNodesRelationsFromData
    (parseRelations : String → Except String (Option (List EntityTriple)))
    (response : LLMResult) : Except String (List EntityTriple) :=
  match response with
  | .text _ => .ok (removeSpacesFromEntities [])
  | .resp none => .ok (removeSpacesFromEntities [])
  | .resp (some calls) =>
    match calls.head? with
    | none => .ok (removeSpacesFromEntities [])
    | some tc =>
      if tc.arguments ≠ "" then
        match parseRelations tc.arguments with
        | .error e => .error e
        | .ok ents => .ok (removeSpacesFromEntities (ents.getD []))
      else .ok (removeSpacesFromEntities [])

/-- The loop of `_getDeleteEntitiesFromSearchOutput`: `JSON.parse` of each
`delete_graph_memory` tool call's arguments (abstracted by `parseDelete`);
there is no try/catch, so a parse failure propagates. -/
def deleteLoop (parseDelete : String → Except String EntityTriple) :
    List ToolCall → List EntityTriple → Except String (List EntityTriple)
  | [], acc => .ok acc
  | c :: cs, acc =>
    if c.name = "delete_graph_memory" then
      match parseDelete c.arguments with
      | .error e => .error e
      | .ok t => deleteLoop parseDelete cs (acc ++ [t])
    else deleteLoop parseDelete cs acc

/-- `_getDeleteEntitiesFromSearchOutput`. -/
def getDeleteEntitiesFromSearchOutput
    (parseDelete : String → Except String EntityTriple)
    (response : LLMResult) : Except String (List EntityTriple) :=
  match response with
  | .text _ => .ok (removeSpacesFromEntities [])
  | .resp none => .ok (removeSpacesFromEntities [])
  | .resp (some calls) =>
    match deleteLoop parseDelete calls [] with
    | .error e => .error e
    | .ok l => .ok (removeSpacesFromEntities l)

/-- `FalkorMemoryGraph.add`, collaborators abstracted: `r1`, `r2`, `r3` are
the three LLM responses (entity extraction, relation extraction, deletion
decisions), the `parse*` functions the JSON parses of their tool-call
argument strings, `sim` the store's similarity, `embed` the embedder and
`now` the store's `timestamp()`. Returns the final graph and the triples
reported in `addedEntities`, or the uncaught error. -/
def addCall
    (parseEntities : String → Except String (List (String × String)))
    (parseRelations : String → Except String (Option (List EntityTriple)))
    (parseDelete : String → Except String EntityTriple)
    (sim : List ℚ → List ℚ → ℚ) (embed : String → List ℚ) (now : ℚ)
    (st : GraphState) (r1 r2 r3 : LLMResult) (userId : String) :
    Except String (GraphState × List EntityTriple) :=
  let entityTypeMap := retrieveNodesFromData parseEntities r1
  match establishNodesRelationsFromData parseRelations r2 with
  | .error e => .error e
  | .ok toBeAdded =>
    -- the search output only feeds the deletion prompt, whose answer is r3
    let _searchOutput := searchGraphDbState sim embed st
      (entityTypeMap.map (fun kv => kv.1)) userId 100
    match getDeleteEntitiesFromSearchOutput parseDelete r3 with
    | .error e => .error e
    | .ok toBeDeleted =>
      let st1 := deleteEntitiesState st toBeDeleted userId
      let st2 := addEntitiesState sim embed now st1 toBeAdded userId entityTypeMap
      .ok (st2, toBeAdded)

/-- `FalkorMemoryGraph.search`: extract entities from the query, recall
from the graph (`limit` defaults to 100), then BM25-rerank. -/
def searchCall
    (parseEntities : String → Except String (List (String × String)))
    (sim : List ℚ → List ℚ → ℚ) (embed : String → List ℚ) (log : ℚ → ℚ)
    (st : GraphState) (r1 : LLMResult) (query : String) (userId : String)
    (limit : ℕ) : List EntityTriple :=
  let entityTypeMap := retrieveNodesFromData parseEntities r1
  let searchOutput := searchGraphDbState sim embed st
    (entityTypeMap.map (fun kv => kv.1)) userId limit
  searchRerank log query searchOutput

-- ════════════════════════════════════════════════════════════════════════
-- FalkorDBGraph.ts — graph selection at init
-- ════════════════════════════════════════════════════════════════════════

/-- `FalkorDBConfig` (types.ts). -/
structure FalkorDBConfig where
  host : String
  port : ℕ
  username : Option String
  password : Option String
  graphName : Option String
deriving DecidableEq, Repr

/-- The graph selected by `FalkorDBGraph.init`:
`this.client.selectGraph(this.config.graphName || "mem0")`. One graph per
connection, chosen from the config alone (`||` is the JS falsy check). -/
def initGraphName (config : FalkorDBConfig) : String :=
  match config.graphName with
  | some g => if g = "" then "mem0" else g
  | none => "mem0"

-- ════════════════════════════════════════════════════════════════════════
-- C5
-- ════════════════════════════════════════════════════════════════════════

/-- C5: for every query and tenant, `search` returns at most 5 triples;
when the recall phase (`_searchGraphDb` over the extracted entity names)
yields no hits it returns the empty sequence immediately; otherwise the
hits are re-ranked by BM25 over their 3-token synthetic documents against
the whitespace-tokenized query and the top 5 are returned. -/
theorem C5_search_caps_and_short_circuit
    (pe : String → Except String (List (String × String)))
    (sim : List ℚ → List ℚ → ℚ) (embed : String → List ℚ) (log : ℚ → ℚ)
    (st : GraphState) (r1 : LLMResult) (query : String) (userId : String)
    (limit : ℕ) :
    (searchCall pe sim embed log st r1 query userId limit).length ≤ 5
    ∧ (searchGraphDbState sim embed st
         ((retrieveNodesFromData pe r1).map (fun kv => kv.1)) userId limit = [] →
       searchCall pe sim embed log st r1 query userId limit = [])
    ∧ ∀ out, searchGraphDbState sim embed st
         ((retrieveNodesFromData pe r1).map (fun kv => kv.1)) userId limit = out →
       out ≠ [] →
       ((∀ d ∈ out.map (fun it => [it.source, it.relationship, it.destination]),
           d.length = 3)
        ∧ searchCall pe sim embed log st r1 query userId limit =
            (((BM25.make log (out.map (fun it =>
                  [it.source, it.relationship, it.destination])) 1.5 0.75).search
                (jsSplitSpace query)).take 5).map
              (fun item => (⟨item.getD 0 "", item.getD 1 "", item.getD 2 ""⟩ :
                EntityTriple))) := by
  refine ⟨?_, ?_, ?_⟩
  · simp only [searchCall]
    generalize searchGraphDbState sim embed st
      ((retrieveNodesFromData pe r1).map (fun kv => kv.1)) userId limit = out
    unfold searchRerank
    by_cases h : out.length = 0
    · simp [h]
    · simp only [h, if_false, List.length_map, List.length_take]
      omega
  · intro h
    simp only [searchCall, h]
    rfl
  · intro out hout hne
    constructor
    · intro d hd
      rcases List.mem_map.mp hd with ⟨it, _, hit⟩
      simp [← hit]
    · simp only [searchCall, hout]
      unfold searchRerank
      rw [if_neg]
      exact fun h => hne (List.length_eq_zero.mp h)

-- ════════════════════════════════════════════════════════════════════════
-- C4
-- ════════════════════════════════════════════════════════════════════════

theorem branch_flags_count (S D : List ℕ) :
    ([D.isEmpty && !S.isEmpty, !D.isEmpty && S.isEmpty,
      !S.isEmpty && !D.isEmpty, S.isEmpty && D.isEmpty].count true = 1) := by
  cases S <;> cases D <;> rfl

/-- C4: one `_addEntities` iteration resolves source and destination
independently at threshold 0.9 and takes exactly one of four mutually
exclusive branches; in the "neither resolves" branch both nodes are
created through create-if-absent merges typed by the entity-type map
(default `"unknown"` when the name is absent) and then the edge is
merged; in the "both resolve" branch only the edge is merged; node and
edge merges are idempotent (a matching node or edge is reused, a missing
one is appended). -/
theorem C4_add_entities_branching (sim : List ℚ → List ℚ → ℚ)
    (embed : String → List ℚ) (now : ℚ) (st : GraphState) (item : EntityTriple)
    (userId : String) (etm : List (String × String)) :
    ([(searchDestinationNode sim st (embed item.destination) userId (9/10)).isEmpty
        && !(searchSourceNode sim st (embed item.source) userId (9/10)).isEmpty,
      !(searchDestinationNode sim st (embed item.destination) userId (9/10)).isEmpty
        && (searchSourceNode sim st (embed item.source) userId (9/10)).isEmpty,
      !(searchSourceNode sim st (embed item.source) userId (9/10)).isEmpty
        && !(searchDestinationNode sim st (embed item.destination) userId (9/10)).isEmpty,
      (searchSourceNode sim st (embed item.source) userId (9/10)).isEmpty
        && (searchDestinationNode sim st (embed item.destination) userId (9/10)).isEmpty
     ].count true = 1)
    ∧ (searchSourceNode sim st (embed item.source) userId (9/10) = [] →
       searchDestinationNode sim st (embed item.destination) userId (9/10) = [] →
       ∃ r1 r2 : GraphState × ℕ,
         mergeNode st (typeOrUnknown etm item.source)
           [("name", PropVal.str item.source), ("user_id", PropVal.str userId)]
           [("created", PropVal.num now), ("embedding", PropVal.vec (embed item.source))]
           [("embedding", PropVal.vec (embed item.source))] = r1
         ∧ mergeNode r1.1 (typeOrUnknown etm item.destination)
           [("name", PropVal.str item.destination), ("user_id", PropVal.str userId)]
           [("created", PropVal.num now), ("embedding", PropVal.vec (embed item.destination))]
           [("embedding", PropVal.vec (embed item.destination))] = r2
         ∧ addOneEntity sim embed now st item userId etm =
             (mergeEdge r2.1 r1.2 item.relationship r2.2
               [("created", PropVal.num now)]).1)
    ∧ (∀ s0 stl d0 dtl,
       searchSourceNode sim st (embed item.source) userId (9/10) = s0 :: stl →
       searchDestinationNode sim st (embed item.destination) userId (9/10) = d0 :: dtl →
       ∀ ns nd, nodeById st s0 = some ns → nodeById st d0 = some nd →
       addOneEntity sim embed now st item userId etm =
         (mergeEdge st s0 item.relationship d0
           [("created_at", PropVal.num now), ("updated_at", PropVal.num now)]).1)
    ∧ (∀ n, assocGet etm n = none → typeOrUnknown etm n = "unknown")
    ∧ (∀ n t, assocGet etm n = some t → t ≠ "" → typeOrUnknown etm n = t)
    ∧ (∀ (st2 : GraphState) label mp oc om,
        (st2.nodes.find? (fun n => nodeMatches n label mp)).isSome →
        ((mergeNode st2 label mp oc om).1).nodes.length = st2.nodes.length)
    ∧ (∀ (st2 : GraphState) label mp oc om,
        st2.nodes.find? (fun n => nodeMatches n label mp) = none →
        ((mergeNode st2 label mp oc om).1).nodes =
          st2.nodes ++ [⟨st2.nextNodeId, [label], mp ++ oc⟩])
    ∧ (∀ (st2 : GraphState) a r b oc,
        (st2.edges.find? (fun e => e.src == a && e.relType == r && e.dst == b)).isSome →
        (mergeEdge st2 a r b oc).1 = st2)
    ∧ (∀ (st2 : GraphState) a r b oc,
        st2.edges.find? (fun e => e.src == a && e.relType == r && e.dst == b) = none →
        ((mergeEdge st2 a r b oc).1).edges =
          st2.edges ++ [⟨st2.nextEdgeId, r, a, b, oc⟩]) := by
  refine ⟨branch_flags_count _ _, ?_, ?_, ?_, ?_, ?_, ?_, ?_, ?_⟩
  · intro hS hD
    refine ⟨_, _, rfl, rfl, ?_⟩
    simp [addOneEntity, hS, hD]
  · intro s0 stl d0 dtl hS hD ns nd hns hnd
    simp [addOneEntity, hS, hD, hns, hnd]
  · intro n h
    simp [typeOrUnknown, h]
  · intro n t h ht
    simp [typeOrUnknown, h, ht]
  · intro st2 label mp oc om h
    cases hf : st2.nodes.find? (fun n => nodeMatches n label mp) with
    | none => rw [hf] at h; simp at h
    | some n => simp [mergeNode, hf]
  · intro st2 label mp oc om h
    simp [mergeNode, h]
  · intro st2 a r b oc h
    cases hf : st2.edges.find? (fun e => e.src == a && e.relType == r && e.dst == b) with
    | none => rw [hf] at h; simp at h
    | some e => simp [mergeEdge, hf]
  · intro st2 a r b oc h
    simp [mergeEdge, h]

-- ════════════════════════════════════════════════════════════════════════
-- C3
-- ════════════════════════════════════════════════════════════════════════

/-- A graph holding nodes of two different tenants at once. -/
def twoTenantState : GraphState :=
  ⟨[⟨0, ["person"], [("name", PropVal.str "a_node"), ("user_id", PropVal.str "alice")]⟩,
    ⟨1, ["person"], [("name", PropVal.str "b_node"), ("user_id", PropVal.str "bob")]⟩],
   [], 2, 0⟩

/-- C3 (code bug): `FalkorDBGraph.init` selects the single graph
`config.graphName || "mem0"` — the name has no tenant component, so with
the default config every tenant shares the one graph `"mem0"`, not a
namespace `mem0_<tenantId>`; two tenants' nodes coexist in the same
state, and `deleteAll` removes a tenant by property filter inside that
shared graph instead of dropping a per-tenant graph. -/
theorem C3_single_shared_graph :
    (∀ cfg : FalkorDBConfig, cfg.graphName = none → initGraphName cfg = "mem0")
    ∧ initGraphName ⟨"localhost", 6379, none, none, none⟩ = "mem0"
    ∧ initGraphName ⟨"localhost", 6379, none, none, none⟩ ≠ "mem0" ++ "_" ++ "alice"
    ∧ twoTenantState.nodes.length = 2
    ∧ (deleteAllState twoTenantState "alice").nodes =
        [⟨1, ["person"], [("name", PropVal.str "b_node"), ("user_id", PropVal.str "bob")]⟩] := by
  refine ⟨?_, rfl, by decide, rfl, by decide⟩
  intro cfg h
  simp [initGraphName, h]

-- ════════════════════════════════════════════════════════════════════════
-- C1
-- ════════════════════════════════════════════════════════════════════════

/-- C1 counterexample: a malformed first tool-call arguments string makes
relation extraction return the parse error, not an empty triple list, and
the error propagates out of the whole add call instead of degrading it to
a no-op. -/
theorem C1_relation_extraction_raises_cex :
    establishNodesRelationsFromData (fun _ => Except.error "SyntaxError")
        (LLMResult.resp (some [⟨"establish_relationships", "not json"⟩])) =
      Except.error "SyntaxError"
    ∧ establishNodesRelationsFromData (fun _ => Except.error "SyntaxError")
        (LLMResult.resp (some [⟨"establish_relationships", "not json"⟩])) ≠
      Except.ok []
    ∧ addCall (fun _ => Except.ok []) (fun _ => Except.error "SyntaxError")
        (fun _ => Except.ok ⟨"", "", ""⟩) (fun _ _ => 0) (fun _ => []) 0
        GraphState.empty (LLMResult.text "")
        (LLMResult.resp (some [⟨"establish_relationships", "not json"⟩]))
        (LLMResult.text "") "u" = Except.error "SyntaxError" :=
  ⟨rfl, fun h => Except.noConfusion h, rfl⟩

/-- C1 (amended): entity extraction catches parse failures — the entries
accumulated before the failing call survive and nothing is raised — while
relation extraction has no try/catch: a malformed non-empty arguments
string on the first tool call propagates its parse error and fails the
whole add call; only a text response, a response without tool calls, or
one whose first tool call is missing or has empty arguments yields an
empty triple sequence. -/
theorem C1_extraction_error_paths
    (pe : String → Except String (List (String × String)))
    (pr : String → Except String (Option (List EntityTriple)))
    (pd : String → Except String EntityTriple)
    (sim : List ℚ → List ℚ → ℚ) (embed : String → List ℚ) (now : ℚ)
    (st : GraphState) (r1 r3 : LLMResult) (userId : String)
    (tc : ToolCall) (rest : List ToolCall) (e : String) (s : String) :
    (∀ cs acc, tc.name = "extract_entities" → pe tc.arguments = .error e →
       entityLoop pe (tc :: cs) acc = acc)
    ∧ establishNodesRelationsFromData pr (.text s) = .ok []
    ∧ establishNodesRelationsFromData pr (.resp none) = .ok []
    ∧ establishNodesRelationsFromData pr (.resp (some [])) = .ok []
    ∧ (tc.arguments = "" →
        establishNodesRelationsFromData pr (.resp (some (tc :: rest))) = .ok [])
    ∧ (tc.arguments ≠ "" → pr tc.arguments = .error e →
        establishNodesRelationsFromData pr (.resp (some (tc :: rest))) = .error e
        ∧ addCall pe pr pd sim embed now st r1 (.resp (some (tc :: rest))) r3 userId =
            .error e) := by
  refine ⟨?_, rfl, rfl, rfl, ?_, ?_⟩
  · intro cs acc h1 h2
    simp [entityLoop, h1, h2]
  · intro h
    simp [establishNodesRelationsFromData, h, removeSpacesFromEntities]
  · intro h1 h2
    constructor
    · simp [establishNodesRelationsFromData, h1, h2]
    · simp [addCall, establishNodesRelationsFromData, h1, h2]

-- ════════════════════════════════════════════════════════════════════════
-- C2
-- ════════════════════════════════════════════════════════════════════════

/-- C2 counterexample: adding one triple to an empty graph persists two
nodes tagged with the tenant id but an edge carrying no `user_id`
property at all — the "every persisted edge carries the tenant
identifier" half of the claim fails. -/
theorem C2_edge_lacks_tenant_cex :
    ((addOneEntity (fun _ _ => (0 : ℚ)) (fun _ => []) 0 GraphState.empty
        ⟨"alice", "knows", "bob"⟩ "u" []).edges.map
        (fun e => assocGet e.props "user_id") = [none])
    ∧ ((addOneEntity (fun _ _ => (0 : ℚ)) (fun _ => []) 0 GraphState.empty
        ⟨"alice", "knows", "bob"⟩ "u" []).nodes.map
        (fun n => assocGet n.props "user_id") =
        [some (PropVal.str "u"), some (PropVal.str "u")]) := by
  decide

theorem assocGet_assocSet_ne {β : Type} (ps : List (String × β)) (j k : String)
    (v : β) (h : j ≠ k) : assocGet (assocSet ps j v) k = assocGet ps k := by
  induction ps with
  | nil => simp [assocSet, assocGet, h]
  | cons a rest ih =>
    obtain ⟨a1, a2⟩ := a
    by_cases ha : a1 = j
    · subst ha
      simp [assocSet, assocGet, h]
    · simp only [assocSet, if_neg ha]
      by_cases hk : a1 = k
      · simp [assocGet, hk]
      · simp [assocGet, hk, ih]

theorem assocGet_propSetAll_ne (k : String) :
    ∀ (om : List (String × PropVal)) (ps : List (String × PropVal)),
      (∀ kv ∈ om, kv.1 ≠ k) →
      assocGet (propSetAll ps om) k = assocGet ps k
  | [], _, _ => rfl
  | kv :: om', ps, h => by
    have h1 : kv.1 ≠ k := h kv (by simp)
    have hstep : propSetAll ps (kv :: om') =
        propSetAll (assocSet ps kv.1 kv.2) om' := rfl
    rw [hstep, assocGet_propSetAll_ne k om' _ (fun u hu => h u (by simp [hu])),
        assocGet_assocSet_ne _ _ _ _ h1]

theorem find?_map_nid (g : GNode → GNode) (hg : ∀ m, (g m).nid = m.nid)
    (l : List GNode) (p : ℕ) :
    (l.map g).find? (fun n => n.nid == p) = (l.find? (fun n => n.nid == p)).map g := by
  induction l with
  | nil => rfl
  | cons a l ih =>
    simp only [List.map_cons, List.find?]
    rw [hg a]
    cases h : (a.nid == p) with
    | false => simp only [h]; exact ih
    | true => simp only [h]; rfl

theorem find?_nid_of_mem_nodup {l : List GNode} {k : GNode}
    (hnd : (l.map GNode.nid).Nodup) (hk : k ∈ l) :
    l.find? (fun n => n.nid == k.nid) = some k := by
  induction l with
  | nil => cases hk
  | cons a l ih =>
    simp only [List.map_cons, List.nodup_cons] at hnd
    rcases List.mem_cons.mp hk with h | h
    · subst h
      simp [List.find?]
    · have hne : a.nid ≠ k.nid := by
        intro he
        exact hnd.1 (by rw [he]; exact List.mem_map_of_mem GNode.nid h)
      have hfalse : (a.nid == k.nid) = false := by simp [hne]
      simp only [List.find?, hfalse]
      exact ih hnd.2 h

theorem find?_nid_append_none {l l2 : List GNode} {p : ℕ}
    (h : ∀ n ∈ l, n.nid ≠ p) :
    (l ++ l2).find? (fun n => n.nid == p) = l2.find? (fun n => n.nid == p) := by
  induction l with
  | nil => rfl
  | cons a l ih =>
    have hfalse : (a.nid == p) = false := by simp [h a (by simp)]
    simp only [List.cons_append, List.find?, hfalse]
    exact ih (fun n hn => h n (by simp [hn]))

theorem find?_append_some {l l2 : List GNode} {p : GNode → Bool} {a : GNode}
    (h : l.find? p = some a) : (l ++ l2).find? p = some a := by
  induction l with
  | nil => simp [List.find?] at h
  | cons b l ih =>
    cases hb : p b with
    | true => simp only [List.find?, hb] at h ⊢; exact h
    | false =>
      simp only [List.find?, hb] at h
      simp only [List.cons_append, List.find?, hb]
      exact ih h

theorem mergeEdge_nodes (st : GraphState) (a : ℕ) (r : String) (b : ℕ)
    (oc : List (String × PropVal)) : ((mergeEdge st a r b oc).1).nodes = st.nodes := by
  cases hf : st.edges.find? (fun e => e.src == a && e.relType == r && e.dst == b) with
  | none => simp [mergeEdge, hf]
  | some e => simp [mergeEdge, hf]

theorem mergeEdge_edges (st : GraphState) (a : ℕ) (r : String) (b : ℕ)
    (oc : List (String × PropVal)) :
    ((mergeEdge st a r b oc).1).edges = st.edges ∨
    ((mergeEdge st a r b oc).1).edges = st.edges ++ [⟨st.nextEdgeId, r, a, b, oc⟩] := by
  cases hf : st.edges.find? (fun e => e.src == a && e.relType == r && e.dst == b) with
  | none => right; simp [mergeEdge, hf]
  | some e => left; simp [mergeEdge, hf]

theorem mergeNode_edges (st : GraphState) (l : String)
    (mp oc om : List (String × PropVal)) :
    ((mergeNode st l mp oc om).1).edges = st.edges := by
  cases hf : st.nodes.find? (fun n => nodeMatches n l mp) with
  | none => simp [mergeNode, hf]
  | some k => simp [mergeNode, hf]

theorem nodeById_congr_nodes {st1 st2 : GraphState} (h : st1.nodes = st2.nodes)
    (p : ℕ) : nodeById st1 p = nodeById st2 p := by
  unfold nodeById
  rw [h]

theorem mergeNode_nodes_spec (st : GraphState) (l : String)
    (mp oc om : List (String × PropVal)) :
    ∀ n ∈ ((mergeNode st l mp oc om).1).nodes,
      (∃ m ∈ st.nodes, m.nid = n.nid ∧
        (n.props = m.props ∨ n.props = propSetAll m.props om))
      ∨ (n.nid = st.nextNodeId ∧ n.props = mp ++ oc) := by
  intro n hn
  cases hf : st.nodes.find? (fun x => nodeMatches x l mp) with
  | some k =>
    simp only [mergeNode, hf] at hn
    rcases List.mem_map.mp hn with ⟨m, hm, hfm⟩
    by_cases hid : m.nid = k.nid
    · left
      refine ⟨m, hm, ?_, Or.inr ?_⟩
      · rw [← hfm]; simp [hid]
      · rw [← hfm]; simp [hid]
    · left
      refine ⟨m, hm, ?_, Or.inl ?_⟩
      · rw [← hfm]; simp [hid]
      · rw [← hfm]; simp [hid]
  | none =>
    simp only [mergeNode, hf] at hn
    rcases List.mem_append.mp hn with h | h
    · left; exact ⟨n, h, rfl, Or.inl rfl⟩
    · right
      simp only [List.mem_singleton] at h
      subst h
      exact ⟨rfl, rfl⟩

theorem mergeNode_userId_spec (st : GraphState) (l : String)
    (mp oc om : List (String × PropVal))
    (hom : ∀ kv ∈ om, kv.1 ≠ "user_id") :
    ∀ n ∈ ((mergeNode st l mp oc om).1).nodes,
      (∃ m ∈ st.nodes, m.nid = n.nid ∧
        assocGet n.props "user_id" = assocGet m.props "user_id")
      ∨ assocGet n.props "user_id" = assocGet (mp ++ oc) "user_id" := by
  intro n hn
  rcases mergeNode_nodes_spec st l mp oc om n hn with ⟨m, hm, hid, hp | hp⟩ | ⟨_, hp⟩
  · exact Or.inl ⟨m, hm, hid, by rw [hp]⟩
  · exact Or.inl ⟨m, hm, hid, by rw [hp, assocGet_propSetAll_ne _ om _ hom]⟩
  · exact Or.inr (by rw [hp])

theorem mergeNode_nodeById_pre (st : GraphState) (l : String)
    (mp oc om : List (String × PropVal)) (p : ℕ) (n : GNode)
    (hom : ∀ kv ∈ om, kv.1 ≠ "user_id")
    (hp : nodeById st p = some n) :
    ∃ n', nodeById (mergeNode st l mp oc om).1 p = some n' ∧ n'.nid = n.nid ∧
      assocGet n'.props "user_id" = assocGet n.props "user_id" := by
  cases hf : st.nodes.find? (fun x => nodeMatches x l mp) with
  | some k =>
    refine ⟨if n.nid = k.nid then { n with props := propSetAll n.props om } else n,
      ?_, ?_, ?_⟩
    · unfold nodeById at hp ⊢
      simp only [mergeNode, hf]
      rw [find?_map_nid _ (fun m => by split <;> rfl) _ _, hp]
      rfl
    · split <;> rfl
    · split
      · exact assocGet_propSetAll_ne _ om _ hom
      · rfl
  | none =>
    refine ⟨n, ?_, rfl, rfl⟩
    unfold nodeById at hp ⊢
    simp only [mergeNode, hf]
    exact find?_append_some hp

theorem mergeNode_nodeById_self (st : GraphState) (l : String) (w : PropVal)
    (v : PropVal) (oc om : List (String × PropVal))
    (hnd : (st.nodes.map GNode.nid).Nodup)
    (hb : ∀ n ∈ st.nodes, n.nid < st.nextNodeId)
    (hom : ∀ kv ∈ om, kv.1 ≠ "user_id") :
    ∃ n', nodeById (mergeNode st l [("name", w), ("user_id", v)] oc om).1
            (mergeNode st l [("name", w), ("user_id", v)] oc om).2 = some n' ∧
          assocGet n'.props "user_id" = some v := by
  cases hf : st.nodes.find? (fun x => nodeMatches x l [("name", w), ("user_id", v)]) with
  | some k =>
    have hkmem := List.mem_of_find?_eq_some hf
    have hkmatch := List.find?_some hf
    have hku : assocGet k.props "user_id" = some v := by
      unfold nodeMatches at hkmatch
      simp only [Bool.and_eq_true, List.all_eq_true] at hkmatch
      have := hkmatch.2 ("user_id", v) (by simp)
      simpa using this
    refine ⟨{ k with props := propSetAll k.props om }, ?_, ?_⟩
    · unfold nodeById
      simp only [mergeNode, hf]
      rw [find?_map_nid _ (fun m => by split <;> rfl) _ _,
        find?_nid_of_mem_nodup hnd hkmem]
      simp
    · rw [assocGet_propSetAll_ne _ om _ hom, hku]
  | none =>
    refine ⟨⟨st.nextNodeId, [l], [("name", w), ("user_id", v)] ++ oc⟩, ?_, ?_⟩
    · unfold nodeById
      simp only [mergeNode, hf]
      rw [find?_nid_append_none (fun n hn => Nat.ne_of_lt (hb n hn))]
      simp [List.find?]
    · simp [assocGet]

theorem mergeNode_wf (st : GraphState) (l : String)
    (mp oc om : List (String × PropVal))
    (hnd : (st.nodes.map GNode.nid).Nodup)
    (hb : ∀ n ∈ st.nodes, n.nid < st.nextNodeId) :
    ((((mergeNode st l mp oc om).1).nodes.map GNode.nid).Nodup)
    ∧ (∀ n ∈ ((mergeNode st l mp oc om).1).nodes,
        n.nid < ((mergeNode st l mp oc om).1).nextNodeId) := by
  cases hf : st.nodes.find? (fun x => nodeMatches x l mp) with
  | some k =>
    have hmap : (((mergeNode st l mp oc om).1).nodes.map GNode.nid) =
        st.nodes.map GNode.nid := by
      simp only [mergeNode, hf, List.map_map]
      exact List.map_congr_left (fun m _ => by
        simp only [Function.comp_apply]
        split <;> rfl)
    constructor
    · rw [hmap]; exact hnd
    · intro n hn
      simp only [mergeNode, hf] at hn ⊢
      rcases List.mem_map.mp hn with ⟨m, hm, hfm⟩
      have hnid : n.nid = m.nid := by rw [← hfm]; split <;> rfl
      rw [hnid]
      exact hb m hm
  | none =>
    constructor
    · simp only [mergeNode, hf, List.map_append]
      refine List.Nodup.append hnd (by simp) ?_
      intro x hx hy
      simp only [List.map_cons, List.map_nil, List.mem_singleton] at hy
      rcases List.mem_map.mp hx with ⟨n, hn, rfl⟩
      exact absurd hy (Nat.ne_of_lt (hb n hn))
    · intro n hn
      simp only [mergeNode, hf] at hn ⊢
      rcases List.mem_append.mp hn with h | h
      · exact Nat.lt_succ_of_lt (hb n h)
      · simp only [List.mem_singleton] at h
        subst h
        exact Nat.lt_succ_self _

theorem cand_inv (sim : List ℚ → List ℚ → ℚ) (emb : List ℚ) (userId : String)
    (a : GNode) (c : GNode × ℚ)
    (h : (match getEmb a, assocGet a.props "user_id" with
          | some e, some u =>
            if u = PropVal.str userId then some (a, sim e emb) else none
          | _, _ => none) = some c) :
    c.1 = a ∧ assocGet a.props "user_id" = some (PropVal.str userId) := by
  cases hge : getEmb a with
  | none => simp only [hge] at h; cases h
  | some e =>
    cases hgu : assocGet a.props "user_id" with
    | none => simp only [hge, hgu] at h; cases h
    | some u =>
      simp only [hge, hgu] at h
      by_cases hu : u = PropVal.str userId
      · simp only [if_pos hu] at h
        cases h
        exact ⟨rfl, by rw [hu]⟩
      · simp [hu] at h

theorem cand_inv2 (sim : List ℚ → List ℚ → ℚ) (emb : List ℚ) (userId : String)
    (th : ℚ) (a : GNode) (c : GNode × ℚ)
    (h : (match getEmb a, assocGet a.props "user_id" with
          | some e, some u =>
            if u = PropVal.str userId then
              if th ≤ sim e emb then some (a, sim e emb) else none
            else none
          | _, _ => none) = some c) :
    c.1 = a ∧ assocGet a.props "user_id" = some (PropVal.str userId) := by
  cases hge : getEmb a with
  | none => simp only [hge] at h; cases h
  | some e =>
    cases hgu : assocGet a.props "user_id" with
    | none => simp only [hge, hgu] at h; cases h
    | some u =>
      simp only [hge, hgu] at h
      by_cases hu : u = PropVal.str userId
      · simp only [if_pos hu] at h
        by_cases hth : th ≤ sim e emb
        · simp only [if_pos hth] at h
          cases h
          exact ⟨rfl, by rw [hu]⟩
        · simp [hth] at h
      · simp [hu] at h

theorem mem_dedupRows {x : SearchOutputItem} :
    ∀ {seen l : List SearchOutputItem}, x ∈ dedupRows seen l → x ∈ l := by
  intro seen l
  induction l generalizing seen with
  | nil => intro h; simp [dedupRows] at h
  | cons y ys ih =>
    intro h
    simp only [dedupRows] at h
    split at h
    · exact List.mem_cons_of_mem _ (ih h)
    · rcases List.mem_cons.mp h with h | h
      · exact h ▸ List.mem_cons_self _ _
      · exact List.mem_cons_of_mem _ (ih h)

theorem searchSourceNode_tenant (sim : List ℚ → List ℚ → ℚ) (st : GraphState)
    (emb : List ℚ) (userId : String) (th : ℚ) :
    ∀ nid ∈ searchSourceNode sim st emb userId th,
      ∃ n ∈ st.nodes, n.nid = nid ∧
        assocGet n.props "user_id" = some (PropVal.str userId) := by
  intro nid hnid
  simp only [searchSourceNode] at hnid
  rcases List.mem_map.mp hnid with ⟨c, hc, rfl⟩
  have hc2 := List.mem_of_mem_take hc
  rw [mem_sortByScoreDesc] at hc2
  have hc3 := (List.mem_filter.mp hc2).1
  rcases List.mem_filterMap.mp hc3 with ⟨a, ha, hfa⟩
  obtain ⟨h1, h2⟩ := cand_inv sim emb userId a c hfa
  exact ⟨a, ha, by rw [h1], h2⟩

theorem searchRows_tenant (sim : List ℚ → List ℚ → ℚ) (st : GraphState)
    (emb : List ℚ) (userId : String) (th : ℚ) (lim : ℕ) :
    ∀ row ∈ searchRows sim st emb userId th lim,
      ∃ n ∈ st.nodes, assocGet n.props "user_id" = some (PropVal.str userId) ∧
        (row.source_id = toString n.nid ∨ row.destination_id = toString n.nid) := by
  intro row hrow
  simp only [searchRows] at hrow
  have h1 := List.mem_of_mem_take hrow
  rw [mem_sortByScoreDesc] at h1
  have h2 := mem_dedupRows h1
  rcases List.mem_append.mp h2 with h3 | h3
  · rcases List.mem_flatMap.mp h3 with ⟨c, hc, hrow2⟩
    rcases List.mem_filterMap.mp hrow2 with ⟨r, _, hfr⟩
    by_cases hsrc : r.src = c.1.nid
    · simp only [if_pos hsrc] at hfr
      rcases Option.map_eq_some'.mp hfr with ⟨m, _, hmk⟩
      rcases List.mem_filterMap.mp hc with ⟨a, ha, hfa⟩
      obtain ⟨he, hu⟩ := cand_inv2 sim emb userId th a c hfa
      refine ⟨a, ha, hu, Or.inl ?_⟩
      rw [← hmk, he]
    · simp [hsrc] at hfr
  · rcases List.mem_flatMap.mp h3 with ⟨c, hc, hrow2⟩
    rcases List.mem_filterMap.mp hrow2 with ⟨r, _, hfr⟩
    by_cases hdst : r.dst = c.1.nid
    · simp only [if_pos hdst] at hfr
      rcases Option.map_eq_some'.mp hfr with ⟨m, _, hmk⟩
      rcases List.mem_filterMap.mp hc with ⟨a, ha, hfa⟩
      obtain ⟨he, hu⟩ := cand_inv2 sim emb userId th a c hfa
      refine ⟨a, ha, hu, Or.inr ?_⟩
      rw [← hmk, he]
    · simp [hdst] at hfr

theorem mergeNode_userId_spec2 {st : GraphState} {l : String}
    {mp oc om : List (String × PropVal)} {r : GraphState × ℕ}
    (hr : mergeNode st l mp oc om = r)
    (hom : ∀ kv ∈ om, kv.1 ≠ "user_id") :
    ∀ n ∈ r.1.nodes,
      (∃ m ∈ st.nodes, m.nid = n.nid ∧
        assocGet n.props "user_id" = assocGet m.props "user_id")
      ∨ assocGet n.props "user_id" = assocGet (mp ++ oc) "user_id" := by
  subst hr
  exact mergeNode_userId_spec st l mp oc om hom

theorem mergeNode_nodeById_pre2 {st : GraphState} {l : String}
    {mp oc om : List (String × PropVal)} {r : GraphState × ℕ}
    (hr : mergeNode st l mp oc om = r) {p : ℕ} {n : GNode}
    (hom : ∀ kv ∈ om, kv.1 ≠ "user_id")
    (hp : nodeById st p = some n) :
    ∃ n', nodeById r.1 p = some n' ∧ n'.nid = n.nid ∧
      assocGet n'.props "user_id" = assocGet n.props "user_id" := by
  subst hr
  exact mergeNode_nodeById_pre st l mp oc om p n hom hp

theorem mergeNode_nodeById_self2 {st : GraphState} {l : String} {w v : PropVal}
    {oc om : List (String × PropVal)} {r : GraphState × ℕ}
    (hr : mergeNode st l [("name", w), ("user_id", v)] oc om = r)
    (hnd : (st.nodes.map GNode.nid).Nodup)
    (hb : ∀ n ∈ st.nodes, n.nid < st.nextNodeId)
    (hom : ∀ kv ∈ om, kv.1 ≠ "user_id") :
    ∃ n', nodeById r.1 r.2 = some n' ∧ assocGet n'.props "user_id" = some v := by
  subst hr
  exact mergeNode_nodeById_self st l w v oc om hnd hb hom

theorem mergeNode_wf2 {st : GraphState} {l : String}
    {mp oc om : List (String × PropVal)} {r : GraphState × ℕ}
    (hr : mergeNode st l mp oc om = r)
    (hnd : (st.nodes.map GNode.nid).Nodup)
    (hb : ∀ n ∈ st.nodes, n.nid < st.nextNodeId) :
    ((r.1.nodes.map GNode.nid).Nodup)
    ∧ (∀ n ∈ r.1.nodes, n.nid < r.1.nextNodeId) := by
  subst hr
  exact mergeNode_wf st l mp oc om hnd hb

theorem mergeNode_edges2 {st : GraphState} {l : String}
    {mp oc om : List (String × PropVal)} {r : GraphState × ℕ}
    (hr : mergeNode st l mp oc om = r) : r.1.edges = st.edges := by
  subst hr
  exact mergeNode_edges st l mp oc om

set_option maxHeartbeats 1000000 in
/-- C2 (amended): every node persisted by the add path carries the tenant
identifier (new nodes are tagged `user_id`, existing nodes keep their
tag); node resolution and the recall query filter the candidate node by
`user_id`; edges carry no tenant property, but every edge the add path
creates connects two nodes of the acting tenant. -/
theorem C2_tenant_scoping (sim : List ℚ → List ℚ → ℚ) (embed : String → List ℚ)
    (now : ℚ) (st : GraphState) (item : EntityTriple) (userId : String)
    (etm : List (String × String))
    (hnd : (st.nodes.map GNode.nid).Nodup)
    (hb : ∀ n ∈ st.nodes, n.nid < st.nextNodeId) :
    (∀ n ∈ (addOneEntity sim embed now st item userId etm).nodes,
      (∃ m ∈ st.nodes, m.nid = n.nid ∧
        assocGet n.props "user_id" = assocGet m.props "user_id")
      ∨ assocGet n.props "user_id" = some (PropVal.str userId))
    ∧ (∀ emb th nid, nid ∈ searchSourceNode sim st emb userId th →
        ∃ n ∈ st.nodes, n.nid = nid ∧
          assocGet n.props "user_id" = some (PropVal.str userId))
    ∧ (∀ emb th lim row, row ∈ searchRows sim st emb userId th lim →
        ∃ n ∈ st.nodes, assocGet n.props "user_id" = some (PropVal.str userId) ∧
          (row.source_id = toString n.nid ∨ row.destination_id = toString n.nid))
    ∧ (∀ e ∈ (addOneEntity sim embed now st item userId etm).edges,
        e ∈ st.edges ∨
        ∃ n m, nodeById (addOneEntity sim embed now st item userId etm) e.src = some n
          ∧ nodeById (addOneEntity sim embed now st item userId etm) e.dst = some m
          ∧ assocGet n.props "user_id" = some (PropVal.str userId)
          ∧ assocGet m.props "user_id" = some (PropVal.str userId)) := by
  have homNil : ∀ kv ∈ ([] : List (String × PropVal)), kv.1 ≠ "user_id" := by simp
  have homE : ∀ w : List ℚ, ∀ kv ∈ [("embedding", PropVal.vec w)], kv.1 ≠ "user_id" := by
    intro w kv hkv
    simp only [List.mem_singleton] at hkv
    subst hkv
    show ("embedding" : String) ≠ "user_id"
    decide
  have key : (∀ n ∈ (addOneEntity sim embed now st item userId etm).nodes,
      (∃ m ∈ st.nodes, m.nid = n.nid ∧
        assocGet n.props "user_id" = assocGet m.props "user_id")
      ∨ assocGet n.props "user_id" = some (PropVal.str userId))
    ∧ (∀ e ∈ (addOneEntity sim embed now st item userId etm).edges,
        e ∈ st.edges ∨
        ∃ n m, nodeById (addOneEntity sim embed now st item userId etm) e.src = some n
          ∧ nodeById (addOneEntity sim embed now st item userId etm) e.dst = some m
          ∧ assocGet n.props "user_id" = some (PropVal.str userId)
          ∧ assocGet m.props "user_id" = some (PropVal.str userId)) := by
    cases hS : searchSourceNode sim st (embed item.source) userId (9/10) with
    | nil =>
      cases hD : searchDestinationNode sim st (embed item.destination) userId (9/10) with
      | nil =>
        obtain ⟨r1, r2, hr1, hr2, hbody⟩ : ∃ r1 r2 : GraphState × ℕ,
            mergeNode st (typeOrUnknown etm item.source)
              [("name", PropVal.str item.source), ("user_id", PropVal.str userId)]
              [("created", PropVal.num now),
               ("embedding", PropVal.vec (embed item.source))]
              [("embedding", PropVal.vec (embed item.source))] = r1
            ∧ mergeNode r1.1 (typeOrUnknown etm item.destination)
              [("name", PropVal.str item.destination), ("user_id", PropVal.str userId)]
              [("created", PropVal.num now),
               ("embedding", PropVal.vec (embed item.destination))]
              [("embedding", PropVal.vec (embed item.destination))] = r2
            ∧ addOneEntity sim embed now st item userId etm =
                (mergeEdge r2.1 r1.2 item.relationship r2.2
                  [("created", PropVal.num now)]).1 :=
          ⟨_, _, rfl, rfl, by simp [addOneEntity, hS, hD]⟩
        constructor
        · intro n hn
          rw [hbody] at hn
          have hn2 : n ∈ r2.1.nodes := by rwa [mergeEdge_nodes] at hn
          have hmpD : assocGet
              ([("name", PropVal.str item.destination),
                ("user_id", PropVal.str userId)] ++
               [("created", PropVal.num now),
                ("embedding", PropVal.vec (embed item.destination))]) "user_id" =
              some (PropVal.str userId) := by simp [assocGet]
          have hmpS : assocGet
              ([("name", PropVal.str item.source),
                ("user_id", PropVal.str userId)] ++
               [("created", PropVal.num now),
                ("embedding", PropVal.vec (embed item.source))]) "user_id" =
              some (PropVal.str userId) := by simp [assocGet]
          rcases mergeNode_userId_spec2 hr2 (homE _) n hn2 with ⟨m1, hm1, hid1, hu1⟩ | hu
          · rcases mergeNode_userId_spec2 hr1 (homE _) m1 hm1 with
              ⟨m0, hm0, hid0, hu0⟩ | hub
            · exact Or.inl ⟨m0, hm0, hid0.trans hid1, hu1.trans hu0⟩
            · exact Or.inr (hu1.trans (hub.trans hmpS))
          · exact Or.inr (hu.trans hmpD)
        · intro e he
          rw [hbody] at he ⊢
          rcases mergeEdge_edges r2.1 r1.2 item.relationship r2.2
              [("created", PropVal.num now)] with hE | hE
          · left
            rw [hE] at he
            rwa [mergeNode_edges2 hr2, mergeNode_edges2 hr1] at he
          · rw [hE] at he
            rcases List.mem_append.mp he with he | he
            · left
              rwa [mergeNode_edges2 hr2, mergeNode_edges2 hr1] at he
            · right
              simp only [List.mem_singleton] at he
              subst he
              have hwf1 := mergeNode_wf2 hr1 hnd hb
              obtain ⟨n1, hn1, hu1⟩ := mergeNode_nodeById_self2 hr1 hnd hb (homE _)
              obtain ⟨n1', hn1', _, hu1'⟩ := mergeNode_nodeById_pre2 hr2 (homE _) hn1
              obtain ⟨n2, hn2, hu2⟩ :=
                mergeNode_nodeById_self2 hr2 hwf1.1 hwf1.2 (homE _)
              have hcong := nodeById_congr_nodes
                (mergeEdge_nodes r2.1 r1.2 item.relationship r2.2
                  [("created", PropVal.num now)])
              refine ⟨n1', n2, ?_, ?_, by rw [hu1', hu1], hu2⟩
              · rw [hcong]; exact hn1'
              · rw [hcong]; exact hn2
      | cons d0 dtl =>
        have hD' : searchSourceNode sim st (embed item.destination) userId (9/10) =
            d0 :: dtl := hD
        have hd0 : d0 ∈ searchSourceNode sim st (embed item.destination) userId (9/10) := by
          rw [hD']; exact List.mem_cons_self _ _
        obtain ⟨m0, hm0, hmid0, hmu0⟩ :=
          searchSourceNode_tenant sim st (embed item.destination) userId (9/10) d0 hd0
        have hlookD : nodeById st d0 = some m0 := by
          unfold nodeById
          rw [← hmid0]
          exact find?_nid_of_mem_nodup hnd hm0
        obtain ⟨r1, hr1, hbody⟩ : ∃ r1 : GraphState × ℕ,
            mergeNode st (typeOrUnknown etm item.source)
              [("name", PropVal.str item.source), ("user_id", PropVal.str userId)]
              [("created", PropVal.num now),
               ("embedding", PropVal.vec (embed item.source))]
              [] = r1
            ∧ addOneEntity sim embed now st item userId etm =
                (mergeEdge r1.1 r1.2 item.relationship d0
                  [("created", PropVal.num now)]).1 :=
          ⟨_, rfl, by simp [addOneEntity, hS, hD, hlookD]⟩
        constructor
        · intro n hn
          rw [hbody] at hn
          have hn2 : n ∈ r1.1.nodes := by rwa [mergeEdge_nodes] at hn
          rcases mergeNode_userId_spec2 hr1 homNil n hn2 with ⟨m, hm, hid, hu⟩ | hu
          · exact Or.inl ⟨m, hm, hid, hu⟩
          · exact Or.inr (hu.trans (by simp [assocGet]))
        · intro e he
          rw [hbody] at he ⊢
          rcases mergeEdge_edges r1.1 r1.2 item.relationship d0
              [("created", PropVal.num now)] with hE | hE
          · left
            rw [hE] at he
            rwa [mergeNode_edges2 hr1] at he
          · rw [hE] at he
            rcases List.mem_append.mp he with he | he
            · left
              rwa [mergeNode_edges2 hr1] at he
            · right
              simp only [List.mem_singleton] at he
              subst he
              obtain ⟨ns, hns, hus⟩ := mergeNode_nodeById_self2 hr1 hnd hb homNil
              obtain ⟨nd, hnd2, _, hud⟩ := mergeNode_nodeById_pre2 hr1 homNil hlookD
              have hcong := nodeById_congr_nodes
                (mergeEdge_nodes r1.1 r1.2 item.relationship d0
                  [("created", PropVal.num now)])
              refine ⟨ns, nd, ?_, ?_, hus, by rw [hud, hmu0]⟩
              · rw [hcong]; exact hns
              · rw [hcong]; exact hnd2
    | cons s0 stl =>
      have hs0 : s0 ∈ searchSourceNode sim st (embed item.source) userId (9/10) := by
        rw [hS]; exact List.mem_cons_self _ _
      obtain ⟨n0, hn0, hnid0, hu0⟩ :=
        searchSourceNode_tenant sim st (embed item.source) userId (9/10) s0 hs0
      have hlookS : nodeById st s0 = some n0 := by
        unfold nodeById
        rw [← hnid0]
        exact find?_nid_of_mem_nodup hnd hn0
      cases hD : searchDestinationNode sim st (embed item.destination) userId (9/10) with
      | nil =>
        obtain ⟨r1, hr1, hbody⟩ : ∃ r1 : GraphState × ℕ,
            mergeNode st (typeOrUnknown etm item.destination)
              [("name", PropVal.str item.destination), ("user_id", PropVal.str userId)]
              [("created", PropVal.num now),
               ("embedding", PropVal.vec (embed item.destination))]
              [] = r1
            ∧ addOneEntity sim embed now st item userId etm =
                (mergeEdge r1.1 s0 item.relationship r1.2
                  [("created", PropVal.num now)]).1 :=
          ⟨_, rfl, by simp [addOneEntity, hS, hD, hlookS]⟩
        constructor
        · intro n hn
          rw [hbody] at hn
          have hn2 : n ∈ r1.1.nodes := by rwa [mergeEdge_nodes] at hn
          rcases mergeNode_userId_spec2 hr1 homNil n hn2 with ⟨m, hm, hid, hu⟩ | hu
          · exact Or.inl ⟨m, hm, hid, hu⟩
          · exact Or.inr (hu.trans (by simp [assocGet]))
        · intro e he
          rw [hbody] at he ⊢
          rcases mergeEdge_edges r1.1 s0 item.relationship r1.2
              [("created", PropVal.num now)] with hE | hE
          · left
            rw [hE] at he
            rwa [mergeNode_edges2 hr1] at he
          · rw [hE] at he
            rcases List.mem_append.mp he with he | he
            · left
              rwa [mergeNode_edges2 hr1] at he
            · right
              simp only [List.mem_singleton] at he
              subst he
              obtain ⟨ns, hns, _, hus⟩ := mergeNode_nodeById_pre2 hr1 homNil hlookS
              obtain ⟨nd, hnd2, hud⟩ := mergeNode_nodeById_self2 hr1 hnd hb homNil
              have hcong := nodeById_congr_nodes
                (mergeEdge_nodes r1.1 s0 item.relationship r1.2
                  [("created", PropVal.num now)])
              refine ⟨ns, nd, ?_, ?_, by rw [hus, hu0], hud⟩
              · rw [hcong]; exact hns
              · rw [hcong]; exact hnd2
      | cons d0 dtl =>
        have hD' : searchSourceNode sim st (embed item.destination) userId (9/10) =
            d0 :: dtl := hD
        have hd0 : d0 ∈ searchSourceNode sim st (embed item.destination) userId (9/10) := by
          rw [hD']; exact List.mem_cons_self _ _
        obtain ⟨m0, hm0, hmid0, hmu0⟩ :=
          searchSourceNode_tenant sim st (embed item.destination) userId (9/10) d0 hd0
        have hlookD : nodeById st d0 = some m0 := by
          unfold nodeById
          rw [← hmid0]
          exact find?_nid_of_mem_nodup hnd hm0
        have hbody : addOneEntity sim embed now st item userId etm =
            (mergeEdge st s0 item.relationship d0
              [("created_at", PropVal.num now), ("updated_at", PropVal.num now)]).1 := by
          simp [addOneEntity, hS, hD, hlookS, hlookD]
        constructor
        · intro n hn
          rw [hbody] at hn
          rw [mergeEdge_nodes] at hn
          exact Or.inl ⟨n, hn, rfl, rfl⟩
        · intro e he
          rw [hbody] at he ⊢
          rcases mergeEdge_edges st s0 item.relationship d0
              [("created_at", PropVal.num now), ("updated_at", PropVal.num now)]
            with hE | hE
          · left
            rwa [hE] at he
          · rw [hE] at he
            rcases List.mem_append.mp he with he | he
            · exact Or.inl he
            · right
              simp only [List.mem_singleton] at he
              subst he
              have hcong := nodeById_congr_nodes
                (mergeEdge_nodes st s0 item.relationship d0
                  [("created_at", PropVal.num now), ("updated_at", PropVal.num now)])
              refine ⟨n0, m0, ?_, ?_, hu0, hmu0⟩
              · rw [hcong]; exact hlookS
              · rw [hcong]; exact hlookD
  refine ⟨key.1,
    fun emb th nid h => searchSourceNode_tenant sim st emb userId th nid h,
    fun emb th lim row h => searchRows_tenant sim st emb userId th lim row h,
    key.2⟩

/-- C2 witness: the tenant-scoping theorem applied to a concrete
two-tenant graph. -/
theorem C2_tenant_scoping_witness :
    ((twoTenantState.nodes.map GNode.nid).Nodup)
    ∧ (∀ n ∈ twoTenantState.nodes, n.nid < twoTenantState.nextNodeId)
    ∧ (∀ n ∈ (addOneEntity (fun _ _ => (0 : ℚ)) (fun _ => ([] : List ℚ)) 0
          twoTenantState ⟨"alice", "knows", "bob"⟩ "alice" []).nodes,
        (∃ m ∈ twoTenantState.nodes, m.nid = n.nid ∧
          assocGet n.props "user_id" = assocGet m.props "user_id")
        ∨ assocGet n.props "user_id" = some (PropVal.str "alice")) :=
  ⟨by decide, by decide,
    (C2_tenant_scoping (fun _ _ => (0 : ℚ)) (fun _ => ([] : List ℚ)) 0
      twoTenantState ⟨"alice", "knows", "bob"⟩ "alice" []
      (by decide) (by decide)).1⟩

/-- C6 witness: three synthetic documents, a query sharing terms only with
the middle one; with the concrete logarithm surrogate `x - 1` (positive
above 1, like `Math.log`) that document ranks first. -/
theorem C6_bm25_ranks_sharing_document_first_witness :
    (∀ x : ℚ, 1 < x → 0 < x - 1)
    ∧ (∃ t ∈ ["bob", "pizza"], t ∈ ["bob", "loves", "pizza"])
    ∧ (∀ e ∈ [["alice", "works_at", "acme"]] ++ [["carol", "lives_in", "paris"]],
        ∀ t ∈ ["bob", "pizza"], t ∉ e)
    ∧ (((BM25.make (fun x => x - 1)
          ([["alice", "works_at", "acme"]] ++
            ["bob", "loves", "pizza"] :: [["carol", "lives_in", "paris"]])
          1.5 0.75).search ["bob", "pizza"]).head? = some ["bob", "loves", "pizza"]
      ∧ List.Pairwise (fun a b => b.2 ≤ a.2)
          (sortByScoreDesc (fun item => item.2)
            (([["alice", "works_at", "acme"]] ++
              ["bob", "loves", "pizza"] :: [["carol", "lives_in", "paris"]]).enum.map
              (fun p => (p.2, (BM25.make (fun x => x - 1)
                ([["alice", "works_at", "acme"]] ++
                  ["bob", "loves", "pizza"] :: [["carol", "lives_in", "paris"]])
                1.5 0.75).score ["bob", "pizza"] p.2 p.1))))) :=
  ⟨fun x hx => by linarith, by decide, by decide,
    C6_bm25_ranks_sharing_document_first (fun x => x - 1)
      (fun x hx => by show (0:ℚ) < x - 1; linarith)
      [["alice", "works_at", "acme"]] [["carol", "lives_in", "paris"]]
      ["bob", "loves", "pizza"] ["bob", "pizza"]
      (by decide) (by decide)⟩
